import Mathlib

/-!
Shallow embedding of the OMEGA-AI tool/workflow execution engine
(src/modules/aiTools/ToolRegistry.ts, src/modules/aiTools/ToolExecutor.ts,
src/modules/WorkFlowManager.ts) together with theorems checking the
natural-language specification against it.

JavaScript values are modelled by the inductive `JVal`; `null` and
`undefined` are distinguished, objects are insertion-ordered field lists
(as JS object literals are), and thrown `Error` objects are modelled by
the structured `EngineErr` type whose `message` rendering reproduces the
exact message strings built by the source.
-/

namespace Omega

/-- JavaScript-like values threaded through the engine. -/
inductive JVal where
  | null
  | undefined
  | bool (b : Bool)
  | num (n : Int)
  | str (s : String)
  | arr (xs : List JVal)
  | obj (fields : List (String × JVal))

/-- First entry with the given key in an insertion-ordered string-keyed map
(JS object property lookup / `Map.get`). -/
def lookupKey {α : Type} : List (String × α) → String → Option α
  | [], _ => none
  | (k', v) :: rest, k => if k' = k then some v else lookupKey rest k

/-- JS property assignment `o[k] = v` / `Map.set`: an existing key is updated
in place (keeping its position), a new key is appended. -/
def setKey {α : Type} : List (String × α) → String → α → List (String × α)
  | [], k, v => [(k, v)]
  | (k', w) :: rest, k, v =>
    if k' = k then (k, v) :: rest else (k', w) :: setKey rest k v

/-- Field lookup on a JS object's field list. -/
def findField (fs : List (String × JVal)) (k : String) : Option JVal :=
  lookupKey fs k

/-- Field assignment on a JS object's field list. -/
def setField (fs : List (String × JVal)) (k : String) (v : JVal) :
    List (String × JVal) :=
  setKey fs k v

/-- Thrown `Error` objects. Each constructor corresponds to one `throw new
Error(...)` site of the engine; `errMessage` below renders the exact message
string the source builds there. `stepFailed` stores the cause's message,
because the source interpolates `error.message` into the wrapping error. -/
inductive EngineErr where
  | workflowNotFound (id : String)
  | toolNotFoundRegistry (name : String)
  | invalidMapping (key name : String)
  | toolNotFound (name : String)
  | invalidInput (name : String) (serializedViolations : String)
  | invalidOutput (name : String) (serializedViolations : String)
  | pathResolutionFailed (segment : String)
  | typeErrorNullProp (prop : String)
  | expectedArray (basePath : String)
  | stepFailed (index : Nat) (causeMessage : String)
deriving DecidableEq, Repr

/-- The JS `Error.message` of each thrown error, as built by the source. -/
def errMessage : EngineErr → String
  | .workflowNotFound id => "Workflow " ++ id ++ " not found"
  | .toolNotFoundRegistry name => "Tool " ++ name ++ " not found in registry"
  | .invalidMapping key name =>
      "Invalid input mapping: " ++ key ++ " not found in tool " ++ name
  | .toolNotFound name => "Tool " ++ name ++ " not found"
  | .invalidInput name v => "Invalid input for tool " ++ name ++ ": " ++ v
  | .invalidOutput name v => "Invalid output from tool " ++ name ++ ": " ++ v
  | .pathResolutionFailed segment => "Path resolution failed at " ++ segment
  | .typeErrorNullProp prop =>
      "Cannot read properties of null (reading " ++ prop ++ ")"
  | .expectedArray basePath => "Expected an array at path " ++ basePath
  | .stepFailed index causeMessage =>
      "Workflow execution failed at step " ++ toString index ++ ": " ++ causeMessage

/-! ## Path resolver (`getValueFromPath`, WorkFlowManager.ts lines 176-210) -/

def isNullish : JVal → Bool
  | .null => true
  | .undefined => true
  | _ => false

/-- JS word character, the `\w` class of the segment regex. -/
def isWordChar (c : Char) : Bool := c.isAlphanum || c = '_'

/-- Try to match the regex `(\w+)\[(\d+)\]` anchored at the start of `cs`:
a maximal nonempty word-character run, then a bracketed nonempty digit run.
(Backtracking into a shorter `\w+`/`\d+` run can never help, because the
character after a shortened run is still a word character/digit, never the
required bracket, so the maximal-run reading is equivalent.) -/
def matchSegHere (cs : List Char) : Option (String × Nat) :=
  let w := cs.takeWhile isWordChar
  if w.isEmpty then none
  else
    match cs.dropWhile isWordChar with
    | '[' :: r2 =>
      let d := r2.takeWhile Char.isDigit
      if d.isEmpty then none
      else
        match r2.dropWhile Char.isDigit with
        | ']' :: _ =>
            some (String.mk w, d.foldl (fun n c => n * 10 + (c.toNat - 48)) 0)
        | _ => none
    | _ => none

/-- Leftmost match of `(\w+)\[(\d+)\]` in the segment, as
`part.match(/(\w+)\[(\d+)\]/)` finds it. -/
def matchArrayIndex : List Char → Option (String × Nat)
  | [] => none
  | c :: cs =>
    match matchSegHere (c :: cs) with
    | some r => some r
    | none => matchArrayIndex cs

/-- JS property read `v[k]` on a non-nullish accumulator: a field of an
object, `undefined` otherwise (own properties only). -/
def jsProp (v : JVal) (k : String) : JVal :=
  match v with
  | .obj fs => (findField fs k).getD .undefined
  | _ => .undefined

/-- The broadcast `acc.map((item) => item[part])` over an array accumulator:
JS property reads on the elements, left to right; a null/undefined element
raises a TypeError (`item[part]` on it throws), which aborts the map. -/
def broadcastItems (part : String) : List JVal → Except EngineErr (List JVal)
  | [] => .ok []
  | x :: xs =>
    if isNullish x then .error (.typeErrorNullProp part)
    else
      match broadcastItems part xs with
      | .error e => .error e
      | .ok ys => .ok (jsProp x part :: ys)

/-- One step of the `reduce` in `getValueFromPath`: process one dot-separated
segment against the accumulator. Mirrors the source order: the null/undefined
check throws first; an indexed segment returns `undefined` (after a warning)
when the named property is absent or not an array, and selects the element
otherwise; a plain segment broadcasts over an array accumulator and is a
plain property read otherwise. -/
def resolveSegment (acc : JVal) (part : String) : Except EngineErr JVal :=
  if isNullish acc then .error (.pathResolutionFailed part)
  else
    match matchArrayIndex part.toList with
    | some (arrayName, index) =>
      match acc with
      | .obj fs =>
        match findField fs arrayName with
        | some (.arr xs) => .ok (xs.getD index .undefined)
        | some _ => .ok .undefined
        | none => .ok .undefined
      | _ => .ok .undefined
    | none =>
      match acc with
      | .arr xs =>
        match broadcastItems part xs with
        | .error e => .error e
        | .ok ys => .ok (.arr ys)
      | _ => .ok (jsProp acc part)

/-- The `reduce` of `getValueFromPath`, after splitting the path on dots. -/
def getValueFromParts : JVal → List String → Except EngineErr JVal
  | acc, [] => .ok acc
  | acc, p :: ps =>
    match resolveSegment acc p with
    | .error e => .error e
    | .ok v => getValueFromParts v ps

/-- `path.split(".")`, as a structural recursion over the characters
(`acc` is the current segment, reversed). -/
def splitDotAux : List Char → List Char → List String
  | [], acc => [String.mk acc.reverse]
  | c :: rest, acc =>
    if c = '.' then String.mk acc.reverse :: splitDotAux rest []
    else splitDotAux rest (c :: acc)

/-- `path.split(".")`. -/
def jsSplitDot (s : String) : List String :=
  splitDotAux s.toList []

/-- `getValueFromPath(obj, path)` (WorkFlowManager.ts line 176). -/
def getValueFromPath (obj : JVal) (path : String) : Except EngineErr JVal :=
  getValueFromParts obj (jsSplitDot path)

/-! ## Schemas and the Ajv validator (ToolExecutor.ts lines 6, 19-24, 33-40)

The JSON-Schema fragment the repository actually writes (see the tool
registrations in the content-AI module): `type` one of
string/number/boolean/object/array, object schemas with `properties` and
`required`, array schemas with optional `items`. Additional properties are
allowed, as with Ajv defaults. -/

mutual
/-- The schema fragment: primitive types, arrays (with or without an `items`
schema), objects with `properties` and `required`. -/
inductive Schema where
  | sString
  | sNumber
  | sBoolean
  | sArrayAny
  | sArrayOf (items : Schema)
  | sObject (properties : SProps) (required : List String)
/-- The ordered `properties` map of an object schema. -/
inductive SProps where
  | nil
  | cons (key : String) (sch : Schema) (rest : SProps)
end

/-- Builder for `properties` maps. -/
def propsOf : List (String × Schema) → SProps
  | [] => .nil
  | (k, s) :: rest => .cons k s (propsOf rest)

/-- `properties[key]` of an object schema's properties. -/
def SProps.lookup : SProps → String → Option Schema
  | .nil, _ => none
  | .cons k s rest, key => if k = key then some s else SProps.lookup rest key

/-- One entry of Ajv's `validate.errors`: the instance path of the offending
value and the reason. -/
structure Violation where
  instancePath : String
  message : String
deriving DecidableEq, Repr

/-- The `properties` keyword of a schema, when present
(`tool.inputSchema.properties` in createWorkflow). -/
def schemaProperties : Schema → Option SProps
  | .sObject props _ => some props
  | _ => none

mutual
/-- Ajv-style validation, collecting structured violations; an empty list
means `validate(value)` returned `true`. -/
def validateErrs : Schema → String → JVal → List Violation
  | .sString, path, v =>
    match v with
    | .str _ => []
    | _ => [⟨path, "must be string"⟩]
  | .sNumber, path, v =>
    match v with
    | .num _ => []
    | _ => [⟨path, "must be number"⟩]
  | .sBoolean, path, v =>
    match v with
    | .bool _ => []
    | _ => [⟨path, "must be boolean"⟩]
  | .sArrayAny, path, v =>
    match v with
    | .arr _ => []
    | _ => [⟨path, "must be array"⟩]
  | .sArrayOf item, path, v =>
    match v with
    | .arr xs =>
      (xs.enum.map fun ix =>
        validateErrs item (path ++ "/" ++ toString ix.1) ix.2).flatten
    | _ => [⟨path, "must be array"⟩]
  | .sObject props required, path, v =>
    match v with
    | .obj fs =>
      (required.filterMap fun k =>
        if (findField fs k).isSome then none
        else some ⟨path, "must have required property " ++ k⟩) ++
      validateProps props path fs
    | _ => [⟨path, "must be object"⟩]

/-- Validation of an object's declared properties, in declaration order;
absent properties are skipped (they are `required`'s concern). -/
def validateProps : SProps → String → List (String × JVal) → List Violation
  | .nil, _, _ => []
  | .cons k sub rest, path, fs =>
    (match findField fs k with
     | some x => validateErrs sub (path ++ "/" ++ k) x
     | none => []) ++ validateProps rest path fs
end

/-- `JSON.stringify(validate.errors)`: the violations serialized into one
string, as interpolated into the thrown error messages. -/
def serializeViolations (vs : List Violation) : String :=
  "[" ++ String.intercalate ","
    (vs.map fun v =>
      "\x7b\"instancePath\":\"" ++ v.instancePath ++
      "\",\"message\":\"" ++ v.message ++ "\"\x7d") ++ "]"

/-! ## Tool registry (ToolRegistry.ts) -/

/-- The `ITool` interface object stored in a tool configuration; only the
members the engine itself touches are modelled: the registration key
`toolName` and the `toolArgs` slot that `executeTool` assigns. -/
structure ITool where
  toolName : String
  toolArgs : JVal

/-- `IToolConfig`: interface object, schemas, handler. The handler receives
the tool's interface object (with `toolArgs` set) and produces a value. -/
structure ToolConfig where
  interface : ITool
  inputSchema : Schema
  outputSchema : Schema
  handler : ITool → JVal

/-- `IWorkflowStep`. -/
structure WorkflowStep where
  toolName : String
  inputMapping : List (String × String)

/-- `IWorkflow`. -/
structure Workflow where
  id : String
  name : String
  description : String
  steps : List WorkflowStep

/-- `Omit<IWorkflow, "id">`: the argument of `createWorkflow`. -/
structure WorkflowDef where
  name : String
  description : String
  steps : List WorkflowStep

/-- The `ToolRegistry` maps (`tools`, `workflows`), plus a counter backing
the fresh-identifier supply. -/
structure RegistryState where
  tools : List (String × ToolConfig)
  workflows : List (String × Workflow)
  counter : Nat

/-- `registerTool`: `this.tools.set(tool.interface.toolName, tool)`. -/
def registerTool (reg : RegistryState) (tool : ToolConfig) : RegistryState :=
  { reg with tools := setKey reg.tools tool.interface.toolName tool }

/-- Modelled from the spec: the identifiers produced by `uuidv4()` (an external
library call) are specified only as "a fresh unique identifier generated at
creation"; they are modelled as a deterministic counter-indexed supply. -/
def mkWorkflowId (n : Nat) : String := "wf-" ++ toString n

/-- `ToolRegistry.createWorkflow`: generate an id, store the workflow under
it, return the id. -/
def registryCreateWorkflow (reg : RegistryState) (wfdef : WorkflowDef) :
    String × RegistryState :=
  let id := mkWorkflowId reg.counter
  (id,
   { reg with
     workflows := setKey reg.workflows id
       ⟨id, wfdef.name, wfdef.description, wfdef.steps⟩,
     counter := reg.counter + 1 })

/-! ## Tool executor (ToolExecutor.ts) -/

/-- `ToolExecutor.executeTool`: look the tool up, validate the input, set
`tool.interface.toolArgs = input` (a mutation of the registry-held
configuration, so the updated registry is returned), run the handler on the
tool's interface object, validate the result, return it. -/
def executeTool (reg : RegistryState) (toolName : String) (input : JVal) :
    RegistryState × Except EngineErr JVal :=
  match lookupKey reg.tools toolName with
  | none => (reg, .error (.toolNotFound toolName))
  | some tool =>
    let inputErrs := validateErrs tool.inputSchema "" input
    if inputErrs.isEmpty then
      let mutated : ToolConfig :=
        { tool with interface := { tool.interface with toolArgs := input } }
      let reg' := { reg with tools := setKey reg.tools toolName mutated }
      let result := mutated.handler mutated.interface
      let outputErrs := validateErrs tool.outputSchema "" result
      if outputErrs.isEmpty then (reg', .ok result)
      else (reg', .error (.invalidOutput toolName (serializeViolations outputErrs)))
    else (reg, .error (.invalidInput toolName (serializeViolations inputErrs)))

/-- Modelled from the spec: `executeToolWithJsonOutput`, the executor method
the Workflow Manager calls (WorkFlowManager.ts lines 48 and 127), is not
among the sources; per spec section 3 ("Schema validation is enforced on
every tool invocation, both input and output, regardless of whether the
invocation originated from direct execution or from within a workflow step")
and sections 4.2/4.5 (workflow steps call `executeTool(step.toolName, ...)`
and use the validated result), it is modelled as `executeTool` itself. -/
def executeToolWithJsonOutput (reg : RegistryState) (toolName : String)
    (input : JVal) : RegistryState × Except EngineErr JVal :=
  executeTool reg toolName input

/-! ## Workflow manager (WorkFlowManager.ts) -/

/-- The execution state `currentOutput = {input, output}` threaded through
the step loop. -/
structure CurrentOutput where
  input : JVal
  output : JVal

/-- The `{input, output}` pair as the JS object it is, for path resolution
against it (`extractArrayFromOutput` resolves the base path on it). -/
def coToJVal (co : CurrentOutput) : JVal :=
  .obj [("input", co.input), ("output", co.output)]

/-- The own enumerable entries contributed by `...v` in an object literal:
an object spreads its fields, an array its elements under their decimal
index keys, a string its characters likewise; `null`, `undefined`, numbers
and booleans contribute nothing. -/
def spreadFields : JVal → List (String × JVal)
  | .obj fs => fs
  | .arr xs => xs.enum.map fun ix => (toString ix.1, ix.2)
  | .str s => s.toList.enum.map fun ic => (toString ic.1, .str (String.mk [ic.2]))
  | _ => []

/-- Sequential assignment of each entry into an accumulating object literal. -/
def assignFields (base extra : List (String × JVal)) : List (String × JVal) :=
  extra.foldl (fun acc kv => setField acc kv.1 kv.2) base

/-- The merge `{...a, ...b, ...c}` used for the widened input and the
non-fan-out call payload (later spreads win on key collisions). -/
def mergeSpread3 (a b c : JVal) : JVal :=
  .obj (assignFields (assignFields (assignFields [] (spreadFields a))
    (spreadFields b)) (spreadFields c))

/-- JS `s.replace(pat, rep)` with a string pattern: replace the leftmost
occurrence only. -/
def replaceFirstAux (pat rep : List Char) : List Char → List Char
  | [] => []
  | c :: rest =>
    if pat.isPrefixOf (c :: rest) then rep ++ (c :: rest).drop pat.length
    else c :: replaceFirstAux pat rep rest

/-- JS `s.replace(pat, rep)` for a literal string pattern. -/
def jsReplaceFirst (s pat rep : String) : String :=
  String.mk (replaceFirstAux pat.toList rep.toList s.toList)

/-- JS `s.includes(pat)`. -/
def hasSubstrAux (pat : List Char) : List Char → Bool
  | [] => pat.isEmpty
  | c :: rest => pat.isPrefixOf (c :: rest) || hasSubstrAux pat rest

/-- JS `s.includes(pat)` on strings. -/
def jsIncludes (s pat : String) : Bool :=
  hasSubstrAux pat.toList s.toList

/-- `s.startsWith(pre)`. -/
def jsStartsWith (s pre : String) : Bool :=
  pre.toList.isPrefixOf s.toList

/-- Drop the first `n` characters of a string (the effect of
`s.replace(prefix, "")` when `s` is known to start with the `n`-character
prefix: the first — leading — occurrence is removed). -/
def jsDropChars (s : String) (n : Nat) : String :=
  String.mk (s.toList.drop n)

/-- `arrayPath.replace(/\[\$index\].*/, "")`: everything from the first
literal occurrence of the bracketed token to the end is removed; a path
without that occurrence is left unchanged. -/
def stripIndexSuffixAux (pat : List Char) : List Char → List Char
  | [] => []
  | c :: rest =>
    if pat.isPrefixOf (c :: rest) then [] else c :: stripIndexSuffixAux pat rest

/-- The fan-out base path derived in `extractArrayFromOutput`. -/
def basePathOf (arrayPath : String) : String :=
  String.mk (stripIndexSuffixAux "[$index]".toList arrayPath.toList)

/-- `resolvePath` (WorkFlowManager.ts lines 158-173): prefix-dispatched
resolution of one mapping value. `path.replace("context.", "")` removes the
first occurrence of the prefix, which — as the string is known to start with
it — is exactly dropping it. A value with no recognized prefix is returned
as the literal string itself. -/
def resolvePath (path : String) (co : CurrentOutput)
    (ctx : List (String × JVal)) : Except EngineErr JVal :=
  if jsStartsWith path "context." then
    getValueFromPath (.obj ctx) (jsDropChars path 8)
  else if jsStartsWith path "output." then
    getValueFromPath co.output (jsDropChars path 7)
  else if jsStartsWith path "input." then
    getValueFromPath co.input (jsDropChars path 6)
  else .ok (.str path)

/-- The `Object.entries(inputMapping)` loop of `prepareStepInput`: substitute
the element position for the first `$index` occurrence, resolve, and collect
the mapped input in mapping order. A resolution failure aborts the step. -/
def mapEntriesAux (co : CurrentOutput) (ctx : List (String × JVal))
    (rep : String) : List (String × String) →
    Except EngineErr (List (String × JVal))
  | [] => .ok []
  | (k, v) :: rest =>
    match resolvePath (jsReplaceFirst v "$index" rep) co ctx with
    | .error e => .error e
    | .ok x =>
      match mapEntriesAux co ctx rep rest with
      | .error e => .error e
      | .ok xs => .ok ((k, x) :: xs)

/-- `prepareStepInput` (WorkFlowManager.ts lines 136-156). The substituted
text is `index?.toString() || "0"`: the element position when one is given,
`"0"` otherwise. -/
def prepareStepInput (step : WorkflowStep) (co : CurrentOutput)
    (ctx : List (String × JVal)) (index : Option Nat) :
    Except EngineErr (List (String × JVal)) :=
  mapEntriesAux co ctx (toString (index.getD 0)) step.inputMapping

/-- One recorded tool invocation (instrumentation: the source's calls to
`executeToolWithJsonOutput`, in order, with their payloads and outcomes). -/
structure TraceEntry where
  toolName : String
  input : JVal
  result : Except EngineErr JVal

/-- The per-element loop of `processArrayStep` (lines 112-134): for each
element position, map the step input with `$index` bound to it and invoke
the tool with exactly that mapped input. -/
def processArrayLoop (reg : RegistryState) (step : WorkflowStep)
    (co : CurrentOutput) (ctx : List (String × JVal)) :
    List Nat → RegistryState × List TraceEntry × Except EngineErr (List JVal)
  | [] => (reg, [], .ok [])
  | i :: rest =>
    match prepareStepInput step co ctx (some i) with
    | .error e => (reg, [], .error e)
    | .ok m =>
      match executeToolWithJsonOutput reg step.toolName (.obj m) with
      | (reg', res) =>
        match res with
        | .error e => (reg', [⟨step.toolName, .obj m, .error e⟩], .error e)
        | .ok out =>
          match processArrayLoop reg' step co ctx rest with
          | (reg'', tr, r) =>
            (reg'', ⟨step.toolName, .obj m, .ok out⟩ :: tr,
             match r with
             | .error e => .error e
             | .ok outs => .ok (out :: outs))

/-- One iteration of the step loop of `executeWorkflow` (lines 23-60),
without the catch wrapper. Fan-out detection matches the source: the step
requires array processing exactly when some mapping value contains
`"$index"`, and `extractArrayFromOutput` locates the first such value
(`requiresArrayProcessing` uses `.some`, `extractArrayFromOutput` uses
`.find` with the same predicate, here fused into one `find`). -/
def runStep (initialInput : JVal) (reg : RegistryState) (index : Nat)
    (step : WorkflowStep) (co : CurrentOutput) (ctx : List (String × JVal)) :
    RegistryState × List TraceEntry ×
      Except EngineErr (CurrentOutput × List (String × JVal)) :=
  match step.inputMapping.find? (fun kv => jsIncludes kv.2 "$index") with
  | some kv =>
    -- fan-out path
    let basePath := basePathOf kv.2
    match getValueFromPath (coToJVal co) basePath with
    | .error e => (reg, [], .error e)
    | .ok v =>
      match v with
      | .arr xs =>
        match processArrayLoop reg step co ctx (List.range xs.length) with
        | (reg', tr, .error e) => (reg', tr, .error e)
        | (reg', tr, .ok results) =>
          let resultsV : JVal := .arr results
          let ctx' := setField ctx ("step_" ++ toString index)
            (.obj [("input", co.input), ("output", resultsV)])
          (reg', tr, .ok
            (⟨mergeSpread3 initialInput co.input resultsV, resultsV⟩, ctx'))
      | _ => (reg, [], .error (.expectedArray basePath))
  | none =>
    -- normal (non-fan-out) path
    match prepareStepInput step co ctx none with
    | .error e => (reg, [], .error e)
    | .ok m =>
      let callInput := mergeSpread3 initialInput co.input (.obj m)
      match executeToolWithJsonOutput reg step.toolName callInput with
      | (reg', .error e) =>
        (reg', [⟨step.toolName, callInput, .error e⟩], .error e)
      | (reg', .ok out) =>
        let ctx' := setField ctx ("step_" ++ toString index)
          (.obj [("input", .obj m), ("output", out)])
        (reg', [⟨step.toolName, callInput, .ok out⟩, ],
         .ok (⟨mergeSpread3 initialInput co.input out, out⟩, ctx'))

/-- The step loop with its catch wrapper: any error thrown inside step
`index` is rethrown as the step-failure error whose message interpolates the
index and the cause's message (lines 61-69). -/
def runSteps (initialInput : JVal) (reg : RegistryState) (co : CurrentOutput)
    (ctx : List (String × JVal)) (index : Nat) :
    List WorkflowStep → RegistryState × List TraceEntry ×
      Except EngineErr (CurrentOutput × List (String × JVal))
  | [] => (reg, [], .ok (co, ctx))
  | step :: rest =>
    match runStep initialInput reg index step co ctx with
    | (reg', tr, .error e) => (reg', tr, .error (.stepFailed index (errMessage e)))
    | (reg', tr, .ok (co', ctx')) =>
      match runSteps initialInput reg' co' ctx' (index + 1) rest with
      | (reg'', tr', res) => (reg'', tr ++ tr', res)

/-- The observable outcome of a workflow run: the (possibly mutated)
registry, the ordered tool-invocation trace, the final execution context
(instrumentation; empty when the run failed), and the result — the final
`currentOutput.output`, which the source hands to the streaming adapter
`convertResponseToStream`, a single-chunk stream of exactly that value. -/
structure WorkflowRun where
  registry : RegistryState
  trace : List TraceEntry
  contextFields : List (String × JVal)
  result : Except EngineErr JVal

/-- `executeWorkflow(workflowId, initialInput)` (lines 13-73). -/
def executeWorkflow (reg : RegistryState) (workflowId : String)
    (initialInput : JVal) : WorkflowRun :=
  match lookupKey reg.workflows workflowId with
  | none => ⟨reg, [], [], .error (.workflowNotFound workflowId)⟩
  | some wf =>
    match runSteps initialInput reg ⟨initialInput, .null⟩ [] 0 wf.steps with
    | (reg', tr, .error e) => ⟨reg', tr, [], .error e⟩
    | (reg', tr, .ok (co', ctx')) => ⟨reg', tr, ctx', .ok co'.output⟩

/-- The per-step validation loop of `WorkflowManager.createWorkflow`
(lines 75-90): the inner mapping-key check against the tool's declared
input-schema properties. -/
def checkMappingKeys (tool : ToolConfig) (toolName : String) :
    List (String × String) → Except EngineErr Unit
  | [] => .ok ()
  | (targetKey, _) :: rest =>
    match schemaProperties tool.inputSchema with
    | some props =>
      if (SProps.lookup props targetKey).isSome then
        checkMappingKeys tool toolName rest
      else .error (.invalidMapping targetKey toolName)
    | none => .error (.invalidMapping targetKey toolName)

/-- The outer step loop of `WorkflowManager.createWorkflow`. -/
def validateWorkflowSteps (tools : List (String × ToolConfig)) :
    List WorkflowStep → Except EngineErr Unit
  | [] => .ok ()
  | step :: rest =>
    match lookupKey tools step.toolName with
    | none => .error (.toolNotFoundRegistry step.toolName)
    | some tool =>
      match checkMappingKeys tool step.toolName step.inputMapping with
      | .error e => .error e
      | .ok _ => validateWorkflowSteps tools rest

/-- `WorkflowManager.createWorkflow`: validate every step's tool and mapping
keys, then delegate storage to the registry and return the fresh id. -/
def managerCreateWorkflow (reg : RegistryState) (wfdef : WorkflowDef) :
    Except EngineErr (String × RegistryState) :=
  match validateWorkflowSteps reg.tools wfdef.steps with
  | .error e => .error e
  | .ok _ => .ok (registryCreateWorkflow reg wfdef)

/-! ## Generic lemmas about the ordered string-keyed maps -/

theorem lookupKey_setKey_self {α : Type} (l : List (String × α)) (k : String)
    (v : α) : lookupKey (setKey l k v) k = some v := by
  induction l with
  | nil => simp [setKey, lookupKey]
  | cons kv rest ih =>
    obtain ⟨k', w⟩ := kv
    by_cases h : k' = k
    · simp [setKey, lookupKey, h]
    · simp [setKey, lookupKey, h, ih]

theorem lookupKey_setKey_ne {α : Type} (l : List (String × α)) (k k' : String)
    (v : α) (h : k' ≠ k) :
    lookupKey (setKey l k v) k' = lookupKey l k' := by
  induction l with
  | nil => simp [setKey, lookupKey, Ne.symm h]
  | cons kv rest ih =>
    obtain ⟨k₀, w⟩ := kv
    by_cases h0 : k₀ = k
    · subst h0
      simp [setKey, lookupKey, Ne.symm h]
    · by_cases h1 : k₀ = k'
      · simp [setKey, lookupKey, h0, h1, h]
      · simp [setKey, lookupKey, h0, h1, ih]

/-! ## Lemmas about the path resolver -/

/-- A broadcast that fails can only fail with the element TypeError, never
with the `Path resolution failed` error. -/
theorem broadcastItems_error_shape (part : String) (xs : List JVal)
    (e : EngineErr) (h : broadcastItems part xs = .error e) :
    e = .typeErrorNullProp part := by
  induction xs with
  | nil => simp [broadcastItems] at h
  | cons x rest ih =>
    by_cases hx : isNullish x
    · simp [broadcastItems, hx] at h
      exact h.symm
    · simp only [broadcastItems, hx, Bool.false_eq_true, if_false] at h
      cases hb : broadcastItems part rest with
      | error e' =>
        rw [hb] at h
        simp only [Except.error.injEq] at h
        subst h
        exact ih hb
      | ok ys => rw [hb] at h; simp at h

/-- Broadcast over elements none of which is null/undefined: the projected
array, with `undefined` members for elements lacking the property. -/
theorem broadcastItems_ok_of_no_nullish (part : String) (xs : List JVal)
    (h : ∀ x ∈ xs, isNullish x = false) :
    broadcastItems part xs = .ok (xs.map fun x => jsProp x part) := by
  induction xs with
  | nil => rfl
  | cons x rest ih =>
    simp only [broadcastItems, h x (List.mem_cons_self x rest),
      Bool.false_eq_true, if_false]
    rw [ih fun y hy => h y (List.mem_cons_of_mem x hy)]
    simp

/-- A single segment fails with the `Path resolution failed` error exactly
when the accumulator is null/undefined, and then the error names that
segment. -/
theorem resolveSegment_pathFail_iff (acc : JVal) (p s : String) :
    resolveSegment acc p = .error (.pathResolutionFailed s) ↔
      isNullish acc = true ∧ s = p := by
  constructor
  · intro h
    by_cases hn : isNullish acc
    · refine ⟨hn, ?_⟩
      unfold resolveSegment at h
      rw [if_pos hn] at h
      simp only [Except.error.injEq, EngineErr.pathResolutionFailed.injEq] at h
      exact h.symm
    · exfalso
      unfold resolveSegment at h
      rw [if_neg hn] at h
      cases hm : matchArrayIndex p.toList with
      | some r =>
        obtain ⟨name, i⟩ := r
        rw [hm] at h
        cases acc with
        | obj fs =>
          cases hf : findField fs name with
          | some w => cases w <;> simp [hf] at h
          | none => simp [hf] at h
        | null => exact hn rfl
        | undefined => exact hn rfl
        | bool b => simp at h
        | num n => simp at h
        | str s' => simp at h
        | arr xs => simp at h
      | none =>
        rw [hm] at h
        cases acc with
        | arr xs =>
          cases hb : broadcastItems p xs with
          | error e =>
            simp only [hb, Except.error.injEq] at h
            have hsh := broadcastItems_error_shape p xs e hb
            rw [hsh] at h
            exact EngineErr.noConfusion h
          | ok ys => simp [hb] at h
        | null => exact hn rfl
        | undefined => exact hn rfl
        | bool b => simp at h
        | num n => simp at h
        | str s' => simp at h
        | obj fs => simp at h
  · rintro ⟨hn, rfl⟩
    unfold resolveSegment
    rw [if_pos hn]

/-- The walk fails with `Path resolution failed at s` exactly when some
prefix of the segments resolves to a null/undefined value and `s` is the
segment right after that prefix. -/
theorem getValueFromParts_pathFail_iff (root : JVal) (parts : List String)
    (s : String) :
    getValueFromParts root parts = .error (.pathResolutionFailed s) ↔
      ∃ pre post, parts = pre ++ s :: post ∧
        ∃ v, getValueFromParts root pre = .ok v ∧ isNullish v = true := by
  induction parts generalizing root with
  | nil =>
    simp only [getValueFromParts]
    constructor
    · intro h; exact absurd h (by simp)
    · rintro ⟨pre, post, hparts, -⟩
      exact absurd hparts (by simp)
  | cons p ps ih =>
    constructor
    · intro h
      unfold getValueFromParts at h
      cases hr : resolveSegment root p with
      | error e =>
        rw [hr] at h
        simp only [Except.error.injEq] at h
        rw [h] at hr
        obtain ⟨hnull, rfl⟩ := (resolveSegment_pathFail_iff root p s).mp hr
        exact ⟨[], ps, rfl, root, rfl, hnull⟩
      | ok v =>
        rw [hr] at h
        obtain ⟨pre, post, hparts, w, hw, hwn⟩ := (ih v).mp h
        refine ⟨p :: pre, post, by simp [hparts], w, ?_, hwn⟩
        unfold getValueFromParts
        rw [hr]
        exact hw
    · rintro ⟨pre, post, hparts, v, hv, hn⟩
      cases pre with
      | nil =>
        simp only [List.nil_append, List.cons.injEq] at hparts
        obtain ⟨rfl, rfl⟩ := hparts
        simp only [getValueFromParts, Except.ok.injEq] at hv
        subst hv
        unfold getValueFromParts
        rw [(resolveSegment_pathFail_iff root p p).mpr ⟨hn, rfl⟩]
      | cons q pre' =>
        simp only [List.cons_append, List.cons.injEq] at hparts
        obtain ⟨rfl, rfl⟩ := hparts
        unfold getValueFromParts at hv
        cases hr : resolveSegment root p with
        | error e => rw [hr] at hv; exact absurd hv (by simp)
        | ok w =>
          rw [hr] at hv
          unfold getValueFromParts
          rw [hr]
          exact (ih w).mpr ⟨pre', post, rfl, v, hv, hn⟩

/-! ## Claim C4 -/

/-- C4 (amended): path resolution fails with `Path resolution failed at
<segment>` exactly when the accumulator becomes null/undefined at some
segment of the walk — a plain or an indexed segment alike; an indexed
segment whose named property is absent or not array-shaped resolves to
`undefined` without failing (only a warning is logged), and a non-existent
plain property on an object-shaped accumulator likewise resolves to
`undefined` without failing. -/
theorem path_failure_characterization :
    (∀ (root : JVal) (parts : List String) (s : String),
      getValueFromParts root parts = .error (.pathResolutionFailed s) ↔
        ∃ pre post, parts = pre ++ s :: post ∧
          ∃ v, getValueFromParts root pre = .ok v ∧ isNullish v = true) ∧
    (∀ (fs : List (String × JVal)) (part name : String) (i : Nat),
      matchArrayIndex part.toList = some (name, i) →
      (∀ xs, findField fs name ≠ some (.arr xs)) →
      resolveSegment (.obj fs) part = .ok .undefined) ∧
    (∀ (fs : List (String × JVal)) (part : String),
      matchArrayIndex part.toList = none → findField fs part = none →
      resolveSegment (.obj fs) part = .ok .undefined) := by
  refine ⟨getValueFromParts_pathFail_iff, ?_, ?_⟩
  · intro fs part name i hm hna
    unfold resolveSegment
    rw [if_neg (by simp [isNullish]), hm]
    cases hf : findField fs name with
    | some w =>
      cases w with
      | arr xs => exact absurd hf (hna xs)
      | null => simp [hf]
      | undefined => simp [hf]
      | bool b => simp [hf]
      | num n => simp [hf]
      | str s => simp [hf]
      | obj gs => simp [hf]
    | none => simp [hf]
  · intro fs part hm hf
    unfold resolveSegment
    rw [if_neg (by simp [isNullish]), hm]
    simp [jsProp, hf]

/-- C4 counterexample: the claim demands that an indexed segment whose named
property is absent fail with `PathResolutionFailed`; resolving `"a[0]"`
against `{}` instead succeeds with `undefined`. -/
theorem path_failure_claim_cex :
    getValueFromPath (.obj []) "a[0]" = .ok .undefined := rfl

/-- C4 witness: the characterization applied at concrete inputs —
`{a: null}` walked by `a.b` fails at `b`; an absent indexed property and an
absent plain property both resolve to `undefined`. -/
theorem path_failure_characterization_witness :
    getValueFromParts (.obj [("a", .null)]) ["a", "b"] =
      .error (.pathResolutionFailed "b") ∧
    resolveSegment (.obj [("x", .num 1)]) "a[0]" = .ok .undefined ∧
    resolveSegment (.obj [("x", .num 1)]) "a" = .ok .undefined := by
  refine ⟨?_, ?_, ?_⟩
  · exact (path_failure_characterization.1 _ _ _).mpr
      ⟨["a"], [], rfl, .null, rfl, rfl⟩
  · exact path_failure_characterization.2.1 _ "a[0]" "a" 0 rfl
      (fun xs h => by simp [findField, lookupKey] at h)
  · exact path_failure_characterization.2.2 _ "a" rfl rfl

/-! ## Claim C5 -/

/-- C5: an array-shaped accumulator reached by a plain (non-indexed) segment
broadcasts — the result is the array projecting the property out of every
element, elements lacking the property contributing `undefined` members
rather than failing; in particular
`resolve({a:[{b:1},{b:2},{b:3}]}, "a.b") = [1,2,3]`. -/
theorem broadcast_law
    (xs : List JVal) (part : String)
    (hplain : matchArrayIndex part.toList = none)
    (helems : ∀ x ∈ xs, isNullish x = false) :
    resolveSegment (.arr xs) part = .ok (.arr (xs.map fun x => jsProp x part)) ∧
    getValueFromPath
      (.obj [("a", .arr [.obj [("b", .num 1)], .obj [("b", .num 2)],
        .obj [("b", .num 3)]])]) "a.b" = .ok (.arr [.num 1, .num 2, .num 3]) ∧
    getValueFromPath
      (.obj [("a", .arr [.obj [("b", .num 1)], .obj [("c", .num 2)]])]) "a.b" =
      .ok (.arr [.num 1, .undefined]) := by
  refine ⟨?_, rfl, rfl⟩
  unfold resolveSegment
  rw [if_neg (by simp [isNullish])]
  simp only [hplain]
  rw [broadcastItems_ok_of_no_nullish part xs helems]

/-- C5 witness: broadcast evaluated at a concrete two-element array, one
element lacking the property. -/
theorem broadcast_law_witness :
    resolveSegment (.arr [.obj [("b", .num 1)], .obj [("c", .num 2)]]) "b" =
      .ok (.arr [.num 1, .undefined]) :=
  (broadcast_law [.obj [("b", .num 1)], .obj [("c", .num 2)]] "b" rfl
    (by intro x hx; fin_cases hx <;> rfl)).1

/-! ## Claim C10 -/

/-- A string containing no occurrence of the pattern is left unchanged by
first-occurrence replacement. -/
theorem replaceFirstAux_of_no_occurrence (pat rep s : List Char)
    (h : hasSubstrAux pat s = false) : replaceFirstAux pat rep s = s := by
  induction s with
  | nil => rfl
  | cons c rest ih =>
    simp only [hasSubstrAux, Bool.or_eq_false_iff] at h
    simp only [replaceFirstAux, h.1, Bool.false_eq_true, if_false]
    rw [ih h.2]

/-- Replacement at an exact pattern prefix. -/
theorem replaceFirstAux_prefix (pat rep b : List Char) (hne : pat ≠ []) :
    replaceFirstAux pat rep (pat ++ b) = rep ++ b := by
  cases pat with
  | nil => exact absurd rfl hne
  | cons p ps =>
    rw [List.cons_append, replaceFirstAux]
    rw [if_pos ?_]
    · rw [List.length_cons, ← List.cons_append]
      rw [show ps.length + 1 = (p :: ps).length from rfl, List.drop_left]
    · rw [← List.cons_append]
      exact List.isPrefixOf_iff_prefix.mpr (List.prefix_append _ _)

/-- When the pattern starts with a character absent from `a`, the first
occurrence of the pattern in `a ++ pat ++ b` is exactly the middle one, so
replacement rewrites it and leaves `b` — any later occurrences included —
verbatim. -/
theorem replaceFirstAux_boundary (pat rep a b : List Char)
    (hhead : ∃ ts, pat = '$' :: ts) (hno : '$' ∉ a) :
    replaceFirstAux pat rep (a ++ pat ++ b) = a ++ rep ++ b := by
  induction a with
  | nil =>
    simp only [List.nil_append]
    exact replaceFirstAux_prefix _ _ _ (by obtain ⟨ts, rfl⟩ := hhead; simp)
  | cons c a' ih =>
    have hc : c ≠ '$' := fun hc => hno (hc ▸ List.mem_cons_self c a')
    rw [List.cons_append, List.cons_append, replaceFirstAux]
    rw [if_neg ?_]
    · rw [ih fun hm => hno (List.mem_cons_of_mem c hm)]
      rw [List.cons_append, List.cons_append]
    · obtain ⟨ts, rfl⟩ := hhead
      simp only [List.isPrefixOf]
      rw [show (('$' == c) = false) from beq_eq_false_iff_ne.mpr (Ne.symm hc)]
      simp

/-- C10: in `prepareStepInput` only the first occurrence of `$index` in a
mapping value is replaced by the element position before path resolution —
everything after it, further `$index` occurrences included, stays verbatim —
and in a non-fan-out invocation a `$index`-free value is resolved
unchanged. -/
theorem index_token_substitution
    (t k : String) (co : CurrentOutput) (ctx : List (String × JVal)) :
    (∀ (a b : String) (i : Nat), '$' ∉ a.toList →
      prepareStepInput ⟨t, [(k, a ++ "$index" ++ b)]⟩ co ctx (some i) =
        (resolvePath (a ++ toString i ++ b) co ctx).map fun x => [(k, x)]) ∧
    (∀ v : String, jsIncludes v "$index" = false →
      prepareStepInput ⟨t, [(k, v)]⟩ co ctx none =
        (resolvePath v co ctx).map fun x => [(k, x)]) := by
  constructor
  · intro a b i ha
    have hrepl : jsReplaceFirst (a ++ "$index" ++ b) "$index" (toString i) =
        a ++ toString i ++ b := by
      unfold jsReplaceFirst
      apply String.ext
      show replaceFirstAux "$index".data (toString i).data
        (a ++ "$index" ++ b).data = (a ++ toString i ++ b).data
      rw [String.data_append, String.data_append,
        String.data_append, String.data_append]
      exact replaceFirstAux_boundary _ _ _ _ ⟨"index".data, rfl⟩ ha
    unfold prepareStepInput mapEntriesAux
    simp only [Option.getD]
    rw [hrepl]
    cases hres : resolvePath (a ++ toString i ++ b) co ctx with
    | error e => simp [Except.map]
    | ok x => simp [mapEntriesAux, Except.map]
  · intro v hv
    have hrepl : jsReplaceFirst v "$index" "0" = v := by
      unfold jsReplaceFirst
      apply String.ext
      show replaceFirstAux "$index".data "0".data v.data = v.data
      exact replaceFirstAux_of_no_occurrence _ _ _ hv
    unfold prepareStepInput mapEntriesAux
    simp only [Option.getD]
    rw [show toString (0 : Nat) = "0" from rfl, hrepl]
    cases hres : resolvePath v co ctx with
    | error e => simp [Except.map]
    | ok x => simp [mapEntriesAux, Except.map]

/-- C10 witness: substitution evaluated on a value carrying a second,
verbatim-preserved `$index`, and on an `$index`-free value. -/
theorem index_token_substitution_witness :
    prepareStepInput
        ⟨"produce", [("title", "output.ideas[" ++ "$index" ++ "].idea$index")]⟩
        ⟨.null, .obj [("ideas", .arr [.obj [("idea", .str "A")]])]⟩ []
        (some 1) =
      (resolvePath ("output.ideas[" ++ toString 1 ++ "].idea$index")
        ⟨.null, .obj [("ideas", .arr [.obj [("idea", .str "A")]])]⟩
        []).map (fun x => [("title", x)]) ∧
    prepareStepInput ⟨"produce", [("title", "output.ideas")]⟩
        ⟨.null, .obj [("ideas", .arr [])]⟩ [] none =
      (resolvePath "output.ideas" ⟨.null, .obj [("ideas", .arr [])]⟩
        []).map (fun x => [("title", x)]) :=
  ⟨(index_token_substitution "produce" "title"
      ⟨.null, .obj [("ideas", .arr [.obj [("idea", .str "A")]])]⟩ []).1
      "output.ideas[" "].idea$index" 1 (by decide),
   (index_token_substitution "produce" "title"
      ⟨.null, .obj [("ideas", .arr [])]⟩ []).2 "output.ideas" (by decide)⟩

/-! ## Claim C6 -/

/-- The violation `createWorkflow` detects in a single step, if any: an
unregistered tool, else the first mapping key that is not a declared
property of the tool's input schema. -/
def stepViolation (tools : List (String × ToolConfig)) (step : WorkflowStep) :
    Option EngineErr :=
  match lookupKey tools step.toolName with
  | none => some (.toolNotFoundRegistry step.toolName)
  | some tool =>
    (step.inputMapping.find? fun kv =>
      match schemaProperties tool.inputSchema with
      | some props => (SProps.lookup props kv.1).isNone
      | none => true).map fun kv => .invalidMapping kv.1 step.toolName

/-- The first violation across the steps, in order. -/
def firstViolation (tools : List (String × ToolConfig))
    (steps : List WorkflowStep) : Option EngineErr :=
  steps.findSome? (stepViolation tools)

theorem checkMappingKeys_eq (tool : ToolConfig) (name : String)
    (mapping : List (String × String)) :
    checkMappingKeys tool name mapping =
      match (mapping.find? fun kv =>
          match schemaProperties tool.inputSchema with
          | some props => (SProps.lookup props kv.1).isNone
          | none => true) with
      | some kv => .error (.invalidMapping kv.1 name)
      | none => .ok () := by
  induction mapping with
  | nil => rfl
  | cons kv rest ih =>
    obtain ⟨k, v⟩ := kv
    cases hp : schemaProperties tool.inputSchema with
    | none => simp [checkMappingKeys, hp, List.find?_cons]
    | some props =>
      cases hk : SProps.lookup props k with
      | some s => simp [checkMappingKeys, hp, hk, List.find?_cons, ih]
      | none => simp [checkMappingKeys, hp, hk, List.find?_cons]

theorem validateWorkflowSteps_eq (tools : List (String × ToolConfig))
    (steps : List WorkflowStep) :
    validateWorkflowSteps tools steps =
      match firstViolation tools steps with
      | some e => .error e
      | none => .ok () := by
  induction steps with
  | nil => rfl
  | cons step rest ih =>
    cases ht : lookupKey tools step.toolName with
    | none =>
      simp [validateWorkflowSteps, firstViolation, List.findSome?_cons,
        stepViolation, ht]
    | some tool =>
      simp only [validateWorkflowSteps, firstViolation, List.findSome?_cons,
        stepViolation, ht]
      rw [checkMappingKeys_eq]
      cases hf : (step.inputMapping.find? fun kv =>
          match schemaProperties tool.inputSchema with
          | some props => (SProps.lookup props kv.1).isNone
          | none => true) with
      | some kv => simp [hf]
      | none =>
        simp only [hf, Option.map_none']
        exact ih

/-- C6: `WorkflowManager.createWorkflow` fails — with the unknown-tool error
or the invalid-mapping error of the first offending step, checked in order —
whenever some step names an unregistered tool or maps a key that is not a
declared property of that tool's input schema, and in that case no new state
is produced, so nothing is stored and nothing executes; when every step
passes both checks it stores the workflow via the registry under the fresh
identifier and returns that identifier. -/
theorem create_workflow_validation (reg : RegistryState) (wfdef : WorkflowDef) :
    (∀ e, managerCreateWorkflow reg wfdef = .error e ↔
      firstViolation reg.tools wfdef.steps = some e) ∧
    (firstViolation reg.tools wfdef.steps = none →
      managerCreateWorkflow reg wfdef = .ok (mkWorkflowId reg.counter,
        { reg with
          workflows := setKey reg.workflows (mkWorkflowId reg.counter)
            ⟨mkWorkflowId reg.counter, wfdef.name, wfdef.description,
              wfdef.steps⟩,
          counter := reg.counter + 1 })) ∧
    (lookupKey reg.workflows (mkWorkflowId reg.counter) = none →
      ∀ id reg', managerCreateWorkflow reg wfdef = .ok (id, reg') →
        lookupKey reg.workflows id = none ∧
        lookupKey reg'.workflows id =
          some ⟨id, wfdef.name, wfdef.description, wfdef.steps⟩ ∧
        reg'.tools = reg.tools) := by
  unfold managerCreateWorkflow
  rw [validateWorkflowSteps_eq]
  cases hv : firstViolation reg.tools wfdef.steps with
  | some e' =>
    refine ⟨fun e => ?_, fun h => Option.noConfusion h, fun _ id reg' h => ?_⟩
    · simp
    · exact absurd h (by simp)
  | none =>
    refine ⟨fun e => ?_, fun _ => rfl, fun hfresh id reg' h => ?_⟩
    · simp
    · have hid : id = mkWorkflowId reg.counter ∧
          reg' = { reg with
            workflows := setKey reg.workflows (mkWorkflowId reg.counter)
              ⟨mkWorkflowId reg.counter, wfdef.name, wfdef.description,
                wfdef.steps⟩,
            counter := reg.counter + 1 } := by
        simp only [registryCreateWorkflow, Except.ok.injEq, Prod.mk.injEq] at h
        exact ⟨h.1.symm, h.2.symm⟩
      obtain ⟨rfl, rfl⟩ := hid
      exact ⟨hfresh, lookupKey_setKey_self _ _ _, rfl⟩

/-- C6 tool fixture. -/
def prodToolC6 : ToolConfig :=
  { interface := ⟨"produce", .null⟩
    inputSchema := .sObject (propsOf [("title", .sString)]) ["title"]
    outputSchema := .sObject .nil []
    handler := fun _ => .obj [] }

/-- C6 registry fixture. -/
def regC6 : RegistryState := ⟨[("produce", prodToolC6)], [], 0⟩

/-- C6 workflow-definition fixture. -/
def wfdefC6 : WorkflowDef := ⟨"n", "d", [⟨"produce", [("title", "x")]⟩]⟩

/-- C6 witness: a valid definition is stored under the fresh identifier. -/
theorem create_workflow_validation_witness :
    managerCreateWorkflow regC6 wfdefC6 = .ok ("wf-0",
      { regC6 with
        workflows := setKey regC6.workflows "wf-0"
          ⟨"wf-0", "n", "d", wfdefC6.steps⟩,
        counter := 1 }) ∧
    lookupKey regC6.workflows "wf-0" = none := by
  have h := create_workflow_validation regC6 wfdefC6
  exact ⟨h.2.1 rfl, rfl⟩

/-! ## Registry evolution: what the engine's runtime does and does not touch -/

/-- Tool definition equality up to the mutable `toolArgs` slot. -/
def sameDefn (a b : ToolConfig) : Prop :=
  a.interface.toolName = b.interface.toolName ∧
  a.inputSchema = b.inputSchema ∧ a.outputSchema = b.outputSchema ∧
  a.handler = b.handler

/-- The tools maps agree key-for-key and definition-for-definition; only the
`toolArgs` slots may differ. -/
def toolsDefnEq (xs ys : List (String × ToolConfig)) : Prop :=
  List.Forall₂ (fun x y => x.1 = y.1 ∧ sameDefn x.2 y.2) xs ys

/-- How the engine's runtime may change the registry: tool definitions stay
(only `toolArgs` slots move), workflows and the id counter stay. -/
def regEvolves (a b : RegistryState) : Prop :=
  toolsDefnEq a.tools b.tools ∧ b.workflows = a.workflows ∧
  b.counter = a.counter

theorem sameDefn_refl (a : ToolConfig) : sameDefn a a := ⟨rfl, rfl, rfl, rfl⟩

theorem sameDefn_trans {a b c : ToolConfig} (h1 : sameDefn a b)
    (h2 : sameDefn b c) : sameDefn a c :=
  ⟨h1.1.trans h2.1, h1.2.1.trans h2.2.1, h1.2.2.1.trans h2.2.2.1,
   h1.2.2.2.trans h2.2.2.2⟩

theorem toolsDefnEq_refl (xs : List (String × ToolConfig)) :
    toolsDefnEq xs xs := by
  induction xs with
  | nil => exact List.Forall₂.nil
  | cons x rest ih => exact List.Forall₂.cons ⟨rfl, sameDefn_refl x.2⟩ ih

theorem toolsDefnEq_trans {xs ys zs : List (String × ToolConfig)}
    (h1 : toolsDefnEq xs ys) (h2 : toolsDefnEq ys zs) : toolsDefnEq xs zs := by
  induction h1 generalizing zs with
  | nil => cases h2; exact List.Forall₂.nil
  | cons hxy _ ih =>
    cases h2 with
    | cons hyz h2rest =>
      exact List.Forall₂.cons
        ⟨hxy.1.trans hyz.1, sameDefn_trans hxy.2 hyz.2⟩ (ih h2rest)

theorem regEvolves_refl (a : RegistryState) : regEvolves a a :=
  ⟨toolsDefnEq_refl a.tools, rfl, rfl⟩

theorem regEvolves_trans {a b c : RegistryState} (h1 : regEvolves a b)
    (h2 : regEvolves b c) : regEvolves a c :=
  ⟨toolsDefnEq_trans h1.1 h2.1, h2.2.1.trans h1.2.1, h2.2.2.trans h1.2.2⟩

/-- Lookup across definition-equal tools maps: both absent, or both present
with definition-equal configurations. -/
theorem lookupKey_toolsDefnEq {xs ys : List (String × ToolConfig)}
    (h : toolsDefnEq xs ys) (n : String) :
    (lookupKey xs n = none ∧ lookupKey ys n = none) ∨
    ∃ a b, lookupKey xs n = some a ∧ lookupKey ys n = some b ∧
      sameDefn a b := by
  induction h with
  | nil => exact .inl ⟨rfl, rfl⟩
  | cons hxy hrest ih =>
    rename_i x y xs' ys'
    by_cases hk : x.1 = n
    · refine .inr ⟨x.2, y.2, ?_, ?_, hxy.2⟩
      · simp [lookupKey, hk]
      · simp [lookupKey, hxy.1 ▸ hk]
    · have hk' : y.1 ≠ n := fun hy => hk (hxy.1 ▸ hy)
      simpa [lookupKey, hk, hk'] using ih

/-- Updating a present key with a definition-equal configuration keeps the
map definition-equal. -/
theorem toolsDefnEq_setKey (xs : List (String × ToolConfig)) (n : String)
    {a b : ToolConfig} (hl : lookupKey xs n = some a) (hd : sameDefn a b) :
    toolsDefnEq xs (setKey xs n b) := by
  induction xs with
  | nil => simp [lookupKey] at hl
  | cons x rest ih =>
    by_cases hk : x.1 = n
    · obtain ⟨k, c⟩ := x
      simp only at hk
      subst hk
      simp [lookupKey] at hl
      subst hl
      simp only [setKey, if_pos]
      exact List.Forall₂.cons ⟨rfl, hd⟩ (toolsDefnEq_refl rest)
    · obtain ⟨k, c⟩ := x
      simp only at hk
      simp only [lookupKey, if_neg hk] at hl
      simp only [setKey, if_neg hk]
      exact List.Forall₂.cons ⟨rfl, sameDefn_refl c⟩ (ih hl)

/-- `executeTool` evolves the registry: at most a `toolArgs` slot moves. -/
theorem executeTool_evolves (reg : RegistryState) (n : String) (i : JVal) :
    regEvolves reg (executeTool reg n i).1 := by
  unfold executeTool
  cases hl : lookupKey reg.tools n with
  | none => exact regEvolves_refl reg
  | some tool =>
    by_cases he : (validateErrs tool.inputSchema "" i).isEmpty
    · simp only [he, if_true]
      have hdefn : toolsDefnEq reg.tools (setKey reg.tools n
          { tool with interface := { tool.interface with toolArgs := i } }) :=
        toolsDefnEq_setKey reg.tools n hl ⟨rfl, rfl, rfl, rfl⟩
      by_cases ho : (validateErrs tool.outputSchema ""
          ({ tool with interface := { tool.interface with toolArgs := i } }.handler
            { tool.interface with toolArgs := i })).isEmpty
      · simp only [ho, if_true]
        exact ⟨hdefn, rfl, rfl⟩
      · simp only [ho, if_false]
        exact ⟨hdefn, rfl, rfl⟩
    · simp only [he, if_false]
      exact regEvolves_refl reg

/-- A successful `executeTool` presupposes a registered tool, a schema-valid
input, and returns a schema-valid result. -/
theorem executeTool_ok_validated (reg : RegistryState) (n : String) (i : JVal)
    (reg' : RegistryState) (v : JVal)
    (h : executeTool reg n i = (reg', .ok v)) :
    ∃ tool, lookupKey reg.tools n = some tool ∧
      validateErrs tool.inputSchema "" i = [] ∧
      validateErrs tool.outputSchema "" v = [] := by
  unfold executeTool at h
  cases hl : lookupKey reg.tools n with
  | none => rw [hl] at h; simp at h
  | some tool =>
    rw [hl] at h
    cases he : (validateErrs tool.inputSchema "" i).isEmpty with
    | false => simp [he] at h
    | true =>
      cases ho : (validateErrs tool.outputSchema ""
          (tool.handler { tool.interface with toolArgs := i })).isEmpty with
      | false => simp [he, ho] at h
      | true =>
        simp only [he, ho, if_true, Prod.mk.injEq, Except.ok.injEq] at h
        refine ⟨tool, rfl, List.isEmpty_iff.mp he, ?_⟩
        rw [← h.2]
        exact List.isEmpty_iff.mp ho

/-- An input violating the schema of a registered tool makes `executeTool`
fail with the serialized-violations error, leaving the registry untouched
(in particular the handler is never consulted). -/
theorem executeTool_invalid_input (reg : RegistryState) (n : String)
    (i : JVal) (tool : ToolConfig) (hl : lookupKey reg.tools n = some tool)
    (he : validateErrs tool.inputSchema "" i ≠ []) :
    executeTool reg n i = (reg, .error (.invalidInput n
      (serializeViolations (validateErrs tool.inputSchema "" i)))) := by
  unfold executeTool
  rw [hl]
  have : (validateErrs tool.inputSchema "" i).isEmpty = false := by
    cases hv : validateErrs tool.inputSchema "" i with
    | nil => exact absurd hv he
    | cons a l => simp
  simp only [this, Bool.false_eq_true, if_false]

/-- Validity of one recorded invocation with respect to a tools map: a
successful result presupposes that the named tool is registered there and
that the payload and the result satisfy its schemas. -/
def entryOkValid (tools : List (String × ToolConfig)) (e : TraceEntry) :
    Prop :=
  ∀ v, e.result = .ok v →
    ∃ tool, lookupKey tools e.toolName = some tool ∧
      validateErrs tool.inputSchema "" e.input = [] ∧
      validateErrs tool.outputSchema "" v = []

theorem entryOkValid_transport {xs ys : List (String × ToolConfig)}
    (h : toolsDefnEq xs ys) (e : TraceEntry) (hv : entryOkValid ys e) :
    entryOkValid xs e := by
  intro v hr
  obtain ⟨tool, hl, hi, ho⟩ := hv v hr
  rcases lookupKey_toolsDefnEq h e.toolName with ⟨hx, hy⟩ | ⟨a, b, ha, hb, hd⟩
  · rw [hy] at hl
    exact absurd hl (by simp)
  · rw [hb] at hl
    obtain rfl := Option.some.inj hl
    exact ⟨a, ha, by rw [hd.2.1]; exact hi, by rw [hd.2.2.1]; exact ho⟩

/-- The entry recorded for one raw executor call is valid for the registry
the call was made against. -/
theorem executeTool_entry_valid (reg : RegistryState) (n : String) (i : JVal) :
    entryOkValid reg.tools ⟨n, i, (executeTool reg n i).2⟩ := by
  intro v hr
  have h : executeTool reg n i = ((executeTool reg n i).1, .ok v) := by
    rw [← hr]
  exact executeTool_ok_validated reg n i _ v h

/-- Fan-out loop invariant: the registry only evolves, and every recorded
invocation is valid for the tools map the loop started from. -/
theorem processArrayLoop_inv (step : WorkflowStep) (co : CurrentOutput)
    (ctx : List (String × JVal)) :
    ∀ (idxs : List Nat) (reg reg' : RegistryState) (tr : List TraceEntry)
      (r : Except EngineErr (List JVal)),
      processArrayLoop reg step co ctx idxs = (reg', tr, r) →
      regEvolves reg reg' ∧ ∀ e ∈ tr, entryOkValid reg.tools e := by
  intro idxs
  induction idxs with
  | nil =>
    intro reg reg' tr r h
    simp only [processArrayLoop, Prod.mk.injEq] at h
    obtain ⟨rfl, rfl, -⟩ := h
    exact ⟨regEvolves_refl reg, by simp⟩
  | cons i rest ih =>
    intro reg reg' tr r h
    unfold processArrayLoop at h
    cases hp : prepareStepInput step co ctx (some i) with
    | error e =>
      rw [hp] at h
      simp only [Prod.mk.injEq] at h
      obtain ⟨rfl, rfl, -⟩ := h
      exact ⟨regEvolves_refl reg, by simp⟩
    | ok m =>
      simp only [hp] at h
      cases hx : executeToolWithJsonOutput reg step.toolName (.obj m) with
      | mk regA res =>
        simp only [hx] at h
        have hstep : regEvolves reg regA := by
          have hA : regA =
              (executeToolWithJsonOutput reg step.toolName (.obj m)).1 := by
            rw [hx]
          rw [hA]
          exact executeTool_evolves reg step.toolName (.obj m)
        cases res with
        | error e =>
          simp only [Prod.mk.injEq] at h
          obtain ⟨rfl, rfl, -⟩ := h
          refine ⟨hstep, ?_⟩
          intro e' he'
          simp only [List.mem_singleton] at he'
          subst he'
          intro v hv
          exact absurd hv (by simp)
        | ok out =>
          cases hrec : processArrayLoop regA step co ctx rest with
          | mk regB rest2 =>
            obtain ⟨trB, rB⟩ := rest2
            simp only [hrec] at h
            simp only [Prod.mk.injEq] at h
            obtain ⟨rfl, rfl, -⟩ := h
            obtain ⟨hev, hvalid⟩ := ih regA regB trB rB hrec
            refine ⟨regEvolves_trans hstep hev, ?_⟩
            intro e' he'
            rcases List.mem_cons.mp he' with rfl | hmem
            · have hval := executeTool_entry_valid reg step.toolName (.obj m)
              have h2 : (executeTool reg step.toolName (.obj m)).2 = .ok out := by
                have : (executeToolWithJsonOutput reg step.toolName
                    (.obj m)).2 = .ok out := by rw [hx]
                exact this
              rw [h2] at hval
              exact hval
            · exact entryOkValid_transport hstep.1 e' (hvalid e' hmem)

/-- One step of the workflow loop evolves the registry and records only
valid invocations. -/
theorem runStep_inv (init : JVal) (reg : RegistryState) (idx : Nat)
    (step : WorkflowStep) (co : CurrentOutput) (ctx : List (String × JVal))
    (reg' : RegistryState) (tr : List TraceEntry)
    (res : Except EngineErr (CurrentOutput × List (String × JVal)))
    (h : runStep init reg idx step co ctx = (reg', tr, res)) :
    regEvolves reg reg' ∧ ∀ e ∈ tr, entryOkValid reg.tools e := by
  unfold runStep at h
  cases hfind : step.inputMapping.find? (fun kv => jsIncludes kv.2 "$index") with
  | some kv =>
    simp only [hfind] at h
    cases hgv : getValueFromPath (coToJVal co) (basePathOf kv.2) with
    | error e =>
      simp only [hgv, Prod.mk.injEq] at h
      obtain ⟨rfl, rfl, -⟩ := h
      exact ⟨regEvolves_refl reg, by simp⟩
    | ok v =>
      simp only [hgv] at h
      cases v with
      | arr xs =>
        cases hloop : processArrayLoop reg step co ctx
            (List.range xs.length) with
        | mk regA rest2 =>
          obtain ⟨trA, rA⟩ := rest2
          simp only [hloop] at h
          obtain ⟨hev, hvalid⟩ :=
            processArrayLoop_inv step co ctx _ reg regA trA rA hloop
          cases rA with
          | error e =>
            simp only [Prod.mk.injEq] at h
            obtain ⟨rfl, rfl, -⟩ := h
            exact ⟨hev, hvalid⟩
          | ok results =>
            simp only [Prod.mk.injEq] at h
            obtain ⟨rfl, rfl, -⟩ := h
            exact ⟨hev, hvalid⟩
      | null =>
        simp only [Prod.mk.injEq] at h
        obtain ⟨rfl, rfl, -⟩ := h
        exact ⟨regEvolves_refl reg, by simp⟩
      | undefined =>
        simp only [Prod.mk.injEq] at h
        obtain ⟨rfl, rfl, -⟩ := h
        exact ⟨regEvolves_refl reg, by simp⟩
      | bool b =>
        simp only [Prod.mk.injEq] at h
        obtain ⟨rfl, rfl, -⟩ := h
        exact ⟨regEvolves_refl reg, by simp⟩
      | num n =>
        simp only [Prod.mk.injEq] at h
        obtain ⟨rfl, rfl, -⟩ := h
        exact ⟨regEvolves_refl reg, by simp⟩
      | str s =>
        simp only [Prod.mk.injEq] at h
        obtain ⟨rfl, rfl, -⟩ := h
        exact ⟨regEvolves_refl reg, by simp⟩
      | obj fs =>
        simp only [Prod.mk.injEq] at h
        obtain ⟨rfl, rfl, -⟩ := h
        exact ⟨regEvolves_refl reg, by simp⟩
  | none =>
    simp only [hfind] at h
    cases hp : prepareStepInput step co ctx none with
    | error e =>
      simp only [hp, Prod.mk.injEq] at h
      obtain ⟨rfl, rfl, -⟩ := h
      exact ⟨regEvolves_refl reg, by simp⟩
    | ok m =>
      simp only [hp] at h
      cases hx : executeToolWithJsonOutput reg step.toolName
          (mergeSpread3 init co.input (.obj m)) with
      | mk regA res2 =>
        simp only [hx] at h
        have hstep : regEvolves reg regA := by
          have hA : regA = (executeToolWithJsonOutput reg step.toolName
              (mergeSpread3 init co.input (.obj m))).1 := by
            rw [hx]
          rw [hA]
          exact executeTool_evolves reg step.toolName _
        cases res2 with
        | error e =>
          simp only [Prod.mk.injEq] at h
          obtain ⟨rfl, rfl, -⟩ := h
          refine ⟨hstep, ?_⟩
          intro e' he'
          simp only [List.mem_singleton] at he'
          subst he'
          intro v hv
          exact absurd hv (by simp)
        | ok out =>
          simp only [Prod.mk.injEq] at h
          obtain ⟨rfl, rfl, -⟩ := h
          refine ⟨hstep, ?_⟩
          intro e' he'
          simp only [List.mem_singleton] at he'
          subst he'
          have hval := executeTool_entry_valid reg step.toolName
            (mergeSpread3 init co.input (.obj m))
          have h2 : (executeTool reg step.toolName
              (mergeSpread3 init co.input (.obj m))).2 = .ok out := by
            have : (executeToolWithJsonOutput reg step.toolName
                (mergeSpread3 init co.input (.obj m))).2 = .ok out := by
              rw [hx]
            exact this
          rw [h2] at hval
          exact hval

/-- The whole step loop evolves the registry and records only valid
invocations. -/
theorem runSteps_inv (init : JVal) :
    ∀ (steps : List WorkflowStep) (reg : RegistryState) (co : CurrentOutput)
      (ctx : List (String × JVal)) (idx : Nat) (reg' : RegistryState)
      (tr : List TraceEntry)
      (res : Except EngineErr (CurrentOutput × List (String × JVal))),
      runSteps init reg co ctx idx steps = (reg', tr, res) →
      regEvolves reg reg' ∧ ∀ e ∈ tr, entryOkValid reg.tools e := by
  intro steps
  induction steps with
  | nil =>
    intro reg co ctx idx reg' tr res h
    simp only [runSteps, Prod.mk.injEq] at h
    obtain ⟨rfl, rfl, -⟩ := h
    exact ⟨regEvolves_refl reg, by simp⟩
  | cons step rest ih =>
    intro reg co ctx idx reg' tr res h
    unfold runSteps at h
    cases hs : runStep init reg idx step co ctx with
    | mk regA rest2 =>
      obtain ⟨trA, resA⟩ := rest2
      simp only [hs] at h
      obtain ⟨hevA, hvalA⟩ := runStep_inv init reg idx step co ctx regA trA resA hs
      cases resA with
      | error e =>
        simp only [Prod.mk.injEq] at h
        obtain ⟨rfl, rfl, -⟩ := h
        exact ⟨hevA, hvalA⟩
      | ok pr =>
        obtain ⟨coA, ctxA⟩ := pr
        cases hrec : runSteps init regA coA ctxA (idx + 1) rest with
        | mk regB rest3 =>
          obtain ⟨trB, resB⟩ := rest3
          simp only [hrec, Prod.mk.injEq] at h
          obtain ⟨rfl, rfl, -⟩ := h
          obtain ⟨hevB, hvalB⟩ := ih regA coA ctxA (idx + 1) regB trB resB hrec
          refine ⟨regEvolves_trans hevA hevB, ?_⟩
          intro e he
          rcases List.mem_append.mp he with hm | hm
          · exact hvalA e hm
          · exact entryOkValid_transport hevA.1 e (hvalB e hm)

/-- A whole workflow run evolves the registry and records only valid
invocations relative to the registry it started from. -/
theorem executeWorkflow_inv (reg : RegistryState) (wfId : String)
    (input : JVal) :
    regEvolves reg (executeWorkflow reg wfId input).registry ∧
    ∀ e ∈ (executeWorkflow reg wfId input).trace, entryOkValid reg.tools e := by
  unfold executeWorkflow
  cases hw : lookupKey reg.workflows wfId with
  | none => exact ⟨regEvolves_refl reg, by simp⟩
  | some wf =>
    cases hr : runSteps input reg ⟨input, .null⟩ [] 0 wf.steps with
    | mk regA rest2 =>
      obtain ⟨trA, resA⟩ := rest2
      obtain ⟨hev, hval⟩ :=
        runSteps_inv input wf.steps reg ⟨input, .null⟩ [] 0 regA trA resA hr
      cases resA with
      | error e =>
        simp only [hr]
        exact ⟨hev, hval⟩
      | ok pr =>
        obtain ⟨coA, ctxA⟩ := pr
        simp only [hr]
        exact ⟨hev, hval⟩

/-! ## Claim C2 -/

/-- C2: every invocation path validates both schemas — a successful direct
`executeTool` call presupposes the input validated against the registered
tool's input schema and returns a result validated against its output
schema; an input violating the schema stops before the handler (the
registry, `toolArgs` slot included, is untouched and the serialized
violations are raised); and every invocation recorded during any workflow
run (fan-out or not, all are issued through `executeToolWithJsonOutput`)
satisfies the same validity with respect to the registry the run started
from. -/
theorem every_invocation_validated :
    (∀ (reg : RegistryState) (n : String) (i : JVal) (reg' : RegistryState)
      (v : JVal), executeTool reg n i = (reg', .ok v) →
      ∃ tool, lookupKey reg.tools n = some tool ∧
        validateErrs tool.inputSchema "" i = [] ∧
        validateErrs tool.outputSchema "" v = []) ∧
    (∀ (reg : RegistryState) (n : String) (i : JVal) (tool : ToolConfig),
      lookupKey reg.tools n = some tool →
      validateErrs tool.inputSchema "" i ≠ [] →
      executeTool reg n i = (reg, .error (.invalidInput n
        (serializeViolations (validateErrs tool.inputSchema "" i))))) ∧
    (∀ (reg : RegistryState) (wfId : String) (input : JVal),
      ∀ e ∈ (executeWorkflow reg wfId input).trace, entryOkValid reg.tools e) :=
  ⟨executeTool_ok_validated, executeTool_invalid_input,
   fun reg wfId input => (executeWorkflow_inv reg wfId input).2⟩

/-- C2 fixture tool: echoes its arguments. -/
def echoToolC2 : ToolConfig :=
  { interface := ⟨"echo", .null⟩
    inputSchema := .sObject (propsOf [("title", .sString)]) ["title"]
    outputSchema := .sObject .nil []
    handler := fun it => .obj [("got", it.toolArgs)] }

/-- C2 fixture registry. -/
def regC2 : RegistryState := ⟨[("echo", echoToolC2)], [], 0⟩

/-- C2 witness: a concrete successful invocation is schema-valid on both
sides. -/
theorem every_invocation_validated_witness :
    ∃ tool, lookupKey regC2.tools "echo" = some tool ∧
      validateErrs tool.inputSchema "" (.obj [("title", .str "x")]) = [] ∧
      validateErrs tool.outputSchema ""
        (.obj [("got", .obj [("title", .str "x")])]) = [] :=
  every_invocation_validated.1 regC2 "echo" (.obj [("title", .str "x")])
    (executeTool regC2 "echo" (.obj [("title", .str "x")])).1
    (.obj [("got", .obj [("title", .str "x")])]) rfl

/-! ## Claim C7 -/

/-- C7 fixture: the spec's round-trip tool — input schema
`{topic: string, keywords: string}`, handler echoing `{ideas: []}`. -/
def ideaToolC7 : ToolConfig :=
  { interface := ⟨"content_idea_generator", .null⟩
    inputSchema := .sObject (propsOf [("topic", .sString),
      ("keywords", .sString)]) ["topic", "keywords"]
    outputSchema := .sObject (propsOf [("ideas", .sArrayOf (.sObject .nil []))]) []
    handler := fun _ => .obj [("ideas", .arr [])] }

/-- C7 fixture registry. -/
def regC7 : RegistryState := ⟨[("content_idea_generator", ideaToolC7)], [], 0⟩

/-- C7 counterexample: on `{topic: 5}` the executor throws a plain `Error`
whose message embeds `JSON.stringify(validate.errors)` — the violation data
reaches the caller only as one serialized string inside the message, not as
a structured violation list carried by the error. -/
theorem invalid_input_error_is_string_cex :
    (executeTool regC7 "content_idea_generator" (.obj [("topic", .num 5)])).2 =
      .error (.invalidInput "content_idea_generator" (serializeViolations
        [⟨"", "must have required property keywords"⟩,
         ⟨"/topic", "must be string"⟩])) := rfl

/-- C7 (amended): for schema-violating input, `executeTool` fails with the
error whose message embeds the JSON-serialization of the structured Ajv
violation list (each violation carrying a field path and a reason) as a
single string, with the registry untouched and the handler never consulted;
for conforming input (the spec's `{topic:"x", keywords:"y"}` round trip) it
invokes the handler and returns its schema-valid result without error. -/
theorem executeTool_error_structure :
    (∀ (reg : RegistryState) (n : String) (i : JVal) (tool : ToolConfig),
      lookupKey reg.tools n = some tool →
      validateErrs tool.inputSchema "" i ≠ [] →
      executeTool reg n i = (reg, .error (.invalidInput n
        (serializeViolations (validateErrs tool.inputSchema "" i))))) ∧
    (executeTool regC7 "content_idea_generator"
        (.obj [("topic", .str "x"), ("keywords", .str "y")])).2 =
      .ok (.obj [("ideas", .arr [])]) :=
  ⟨executeTool_invalid_input, rfl⟩

/-- C7 witness: the invalid-input branch applied at `{topic: 5}`. -/
theorem executeTool_error_structure_witness :
    executeTool regC7 "content_idea_generator" (.obj [("topic", .num 5)]) =
      (regC7, .error (.invalidInput "content_idea_generator"
        (serializeViolations (validateErrs ideaToolC7.inputSchema ""
          (.obj [("topic", .num 5)]))))) :=
  executeTool_error_structure.1 regC7 "content_idea_generator"
    (.obj [("topic", .num 5)]) ideaToolC7 rfl (by decide)

/-! ## Claim C9 -/

/-- C9 fixture tool. -/
def echoToolC9 : ToolConfig :=
  { interface := ⟨"echo", .null⟩
    inputSchema := .sObject .nil []
    outputSchema := .sObject .nil []
    handler := fun _ => .obj [] }

/-- C9 fixture registry. -/
def regC9 : RegistryState := ⟨[("echo", echoToolC9)], [], 0⟩

/-- C9 counterexample: `executeTool` writes the invocation input into the
stored tool's `interface.toolArgs` (ToolExecutor.ts line 27) — the
registered entry changes without any re-registration. -/
theorem registered_tool_mutated_cex :
    (lookupKey regC9.tools "echo").map (fun t => t.interface.toolArgs) =
      some .null ∧
    (lookupKey (executeTool regC9 "echo" (.obj [("k", .str "v")])).1.tools
        "echo").map (fun t => t.interface.toolArgs) =
      some (.obj [("k", .str "v")]) ∧
    JVal.null ≠ JVal.obj [("k", .str "v")] :=
  ⟨rfl, rfl, fun h => JVal.noConfusion h⟩

/-- C9 (amended): re-registering a name silently overwrites that entry and
leaves every other entry unchanged; `executeTool` — the one executor through
which every invocation path runs — leaves every other entry unchanged,
never modifies schemas, handler or name, and on every call against a
registered tool whose input passes schema validation it does replace the
stored configuration by the same definition with `toolArgs` set to the
invocation input (on a missing tool or invalid input it changes nothing);
workflow execution likewise only evolves `toolArgs` slots and never touches
the stored workflows. -/
theorem registry_frame :
    (∀ (reg : RegistryState) (tool : ToolConfig),
      lookupKey (registerTool reg tool).tools tool.interface.toolName =
        some tool) ∧
    (∀ (reg : RegistryState) (tool : ToolConfig) (n : String),
      n ≠ tool.interface.toolName →
      lookupKey (registerTool reg tool).tools n = lookupKey reg.tools n) ∧
    (∀ (reg : RegistryState) (name : String) (input : JVal) (n : String),
      n ≠ name →
      lookupKey (executeTool reg name input).1.tools n =
        lookupKey reg.tools n) ∧
    (∀ (reg : RegistryState) (name : String) (input : JVal) (tool : ToolConfig),
      lookupKey reg.tools name = some tool →
      validateErrs tool.inputSchema "" input = [] →
      lookupKey (executeTool reg name input).1.tools name =
        some { tool with interface :=
          { tool.interface with toolArgs := input } }) ∧
    (∀ (reg : RegistryState) (name : String) (input : JVal) (tool : ToolConfig),
      lookupKey reg.tools name = some tool →
      validateErrs tool.inputSchema "" input ≠ [] →
      (executeTool reg name input).1 = reg) ∧
    (∀ (reg : RegistryState) (name : String) (input : JVal),
      lookupKey reg.tools name = none → (executeTool reg name input).1 = reg) ∧
    (∀ (reg : RegistryState) (name : String) (input : JVal),
      regEvolves reg (executeTool reg name input).1) ∧
    (∀ (reg : RegistryState) (wfId : String) (input : JVal),
      regEvolves reg (executeWorkflow reg wfId input).registry) := by
  refine ⟨?_, ?_, ?_, ?_, ?_, ?_, executeTool_evolves,
    fun reg wfId input => (executeWorkflow_inv reg wfId input).1⟩
  · intro reg tool
    exact lookupKey_setKey_self _ _ _
  · intro reg tool n hn
    exact lookupKey_setKey_ne _ _ _ _ hn
  · intro reg name input n hn
    unfold executeTool
    cases hl : lookupKey reg.tools name with
    | none => simp
    | some tool =>
      cases he : (validateErrs tool.inputSchema "" input).isEmpty with
      | false => simp [he]
      | true =>
        cases ho : (validateErrs tool.outputSchema ""
            (tool.handler { tool.interface with toolArgs := input })).isEmpty with
        | true =>
          simp only [he, ho, if_true]
          exact lookupKey_setKey_ne _ _ _ _ hn
        | false =>
          simp only [he, ho, Bool.false_eq_true, if_true, if_false]
          exact lookupKey_setKey_ne _ _ _ _ hn
  · intro reg name input tool hl hv
    have he : (validateErrs tool.inputSchema "" input).isEmpty = true := by
      rw [hv]
      rfl
    unfold executeTool
    rw [hl]
    simp only [he, if_true]
    cases ho : (validateErrs tool.outputSchema ""
        (tool.handler { tool.interface with toolArgs := input })).isEmpty with
    | true =>
      simp only [ho, if_true]
      exact lookupKey_setKey_self _ _ _
    | false =>
      simp only [ho, Bool.false_eq_true, if_false]
      exact lookupKey_setKey_self _ _ _
  · intro reg name input tool hl hv
    have he : (validateErrs tool.inputSchema "" input).isEmpty = false := by
      cases hx : validateErrs tool.inputSchema "" input with
      | nil => exact absurd hx hv
      | cons a l => rfl
    unfold executeTool
    rw [hl]
    simp [he]
  · intro reg name input hl
    unfold executeTool
    rw [hl]

/-- C9 fixture: an overwriting registration for the same name. -/
def tool2C9 : ToolConfig :=
  { interface := ⟨"echo", .str "v2"⟩
    inputSchema := .sString
    outputSchema := .sString
    handler := fun _ => .str "x" }

/-- C9 witness: overwrite, frame and mutation conclusions at concrete
inputs — in particular the valid call `{k: "v"}` does set the stored
`toolArgs` to that input. -/
theorem registry_frame_witness :
    lookupKey (registerTool regC9 tool2C9).tools "echo" = some tool2C9 ∧
    lookupKey (registerTool regC9 tool2C9).tools "other" =
      lookupKey regC9.tools "other" ∧
    lookupKey (executeTool regC9 "echo" (.obj [])).1.tools "other" =
      lookupKey regC9.tools "other" ∧
    lookupKey (executeTool regC9 "echo" (.obj [("k", .str "v")])).1.tools
        "echo" =
      some { echoToolC9 with interface :=
        { echoToolC9.interface with toolArgs := .obj [("k", .str "v")] } } :=
  ⟨registry_frame.1 regC9 tool2C9,
   registry_frame.2.1 regC9 tool2C9 "other" (by decide),
   registry_frame.2.2.1 regC9 "echo" (.obj []) "other" (by decide),
   registry_frame.2.2.2.1 regC9 "echo" (.obj [("k", .str "v")]) echoToolC9
     rfl rfl⟩

/-! ## Claim C3 -/

/-- Evaluation of one non-fan-out step: the tool is called with the
spread-merge of the initial input, the accumulated input and the mapped
input, while the context entry records the bare mapped input. -/
theorem runStep_normal_eval (init : JVal) (reg : RegistryState) (idx : Nat)
    (step : WorkflowStep) (co : CurrentOutput) (ctx : List (String × JVal))
    (m : List (String × JVal)) (reg' : RegistryState) (out : JVal)
    (hnofan : step.inputMapping.find? (fun kv => jsIncludes kv.2 "$index") = none)
    (hm : prepareStepInput step co ctx none = .ok m)
    (hcall : executeToolWithJsonOutput reg step.toolName
      (mergeSpread3 init co.input (.obj m)) = (reg', .ok out)) :
    runStep init reg idx step co ctx =
      (reg', [⟨step.toolName, mergeSpread3 init co.input (.obj m), .ok out⟩],
       .ok (⟨mergeSpread3 init co.input out, out⟩,
         setField ctx ("step_" ++ toString idx)
           (.obj [("input", .obj m), ("output", out)]))) := by
  unfold runStep
  simp only [hnofan, hm, hcall]

/-- C3 (amended): every non-fan-out step whose mapping resolves to
`mappedInput` invokes its tool exactly once and with exactly the merge
`{...initialInput, ...currentOutput.input, ...mappedInput}` — the mapped
input plus every key of the initial and accumulated input, later spreads
winning — never with the bare mapped input, whatever the call's outcome; on
success the execution-context entry `step_<index>` records the bare
`mappedInput` (not the merged payload) together with the tool's output; a
call failure is propagated with no context entry written; and a step whose
mapping fails to resolve invokes no tool at all. -/
theorem nonfanout_step_payload (init : JVal) (reg : RegistryState) (idx : Nat)
    (step : WorkflowStep) (co : CurrentOutput) (ctx : List (String × JVal))
    (hnofan : step.inputMapping.find? (fun kv => jsIncludes kv.2 "$index") = none) :
    (∀ m, prepareStepInput step co ctx none = .ok m →
      ((runStep init reg idx step co ctx).2.1.map
          (fun en => (en.toolName, en.input)) =
        [(step.toolName, mergeSpread3 init co.input (.obj m))]) ∧
      (∀ (reg' : RegistryState) (out : JVal),
        executeToolWithJsonOutput reg step.toolName
          (mergeSpread3 init co.input (.obj m)) = (reg', .ok out) →
        runStep init reg idx step co ctx =
          (reg', [⟨step.toolName, mergeSpread3 init co.input (.obj m), .ok out⟩],
           .ok (⟨mergeSpread3 init co.input out, out⟩,
             setField ctx ("step_" ++ toString idx)
               (.obj [("input", .obj m), ("output", out)])))) ∧
      (∀ (reg' : RegistryState) (e : EngineErr),
        executeToolWithJsonOutput reg step.toolName
          (mergeSpread3 init co.input (.obj m)) = (reg', .error e) →
        runStep init reg idx step co ctx =
          (reg', [⟨step.toolName, mergeSpread3 init co.input (.obj m), .error e⟩],
           .error e))) ∧
    (∀ e, prepareStepInput step co ctx none = .error e →
      runStep init reg idx step co ctx = (reg, [], .error e)) := by
  constructor
  · intro m hm
    refine ⟨?_, ?_, ?_⟩
    · unfold runStep
      simp only [hnofan, hm]
      cases hx : executeToolWithJsonOutput reg step.toolName
          (mergeSpread3 init co.input (.obj m)) with
      | mk regA res => cases res <;> simp
    · intro reg' out hcall
      exact runStep_normal_eval init reg idx step co ctx m reg' out
        hnofan hm hcall
    · intro reg' e hcall
      unfold runStep
      simp only [hnofan, hm, hcall]
  · intro e he
    unfold runStep
    simp only [hnofan, he]

/-- C3 fixture tool. -/
def echoToolC3 : ToolConfig :=
  { interface := ⟨"echo", .null⟩
    inputSchema := .sObject (propsOf [("a", .sString)]) []
    outputSchema := .sObject .nil []
    handler := fun it => .obj [("got", it.toolArgs)] }

/-- C3 fixture workflow: one step mapping only the key `a` to a literal. -/
def wfC3 : Workflow := ⟨"wf-3", "w", "d", [⟨"echo", [("a", "literal")]⟩]⟩

/-- C3 fixture registry. -/
def regC3 : RegistryState := ⟨[("echo", echoToolC3)], [("wf-3", wfC3)], 0⟩

/-- C3 counterexample: with initial input `{b: 1}` and mapped input
`{a: "literal"}` the tool receives the merged `{b: 1, a: "literal"}` — not
exactly the mapped input, which is what the context entry records. -/
theorem step_payload_not_bare_mapped_cex :
    (executeWorkflow regC3 "wf-3" (.obj [("b", .num 1)])).trace.map
        (fun e => e.input) =
      [.obj [("b", .num 1), ("a", .str "literal")]] ∧
    lookupKey (executeWorkflow regC3 "wf-3"
        (.obj [("b", .num 1)])).contextFields "step_0" =
      some (.obj [("input", .obj [("a", .str "literal")]),
        ("output", .obj [("got",
          .obj [("b", .num 1), ("a", .str "literal")])])]) ∧
    JVal.obj [("b", .num 1), ("a", .str "literal")] ≠
      JVal.obj [("a", .str "literal")] :=
  ⟨rfl, rfl, by simp⟩

/-- C3 witness: the characterization applied at the counterexample fixture —
initial `{b: 1}`, mapped input `{a: "literal"}`: the one recorded invocation
carries the merged payload, and the full step equation holds. -/
theorem nonfanout_step_payload_witness :
    ((runStep (.obj [("b", .num 1)]) regC3 0 ⟨"echo", [("a", "literal")]⟩
        ⟨.obj [("b", .num 1)], .null⟩ []).2.1.map
        (fun en => (en.toolName, en.input)) =
      [("echo", mergeSpread3 (.obj [("b", .num 1)]) (.obj [("b", .num 1)])
        (.obj [("a", .str "literal")]))]) ∧
    runStep (.obj [("b", .num 1)]) regC3 0 ⟨"echo", [("a", "literal")]⟩
        ⟨.obj [("b", .num 1)], .null⟩ [] =
      ((executeToolWithJsonOutput regC3 "echo"
          (mergeSpread3 (.obj [("b", .num 1)]) (.obj [("b", .num 1)])
            (.obj [("a", .str "literal")]))).1,
       [⟨"echo", mergeSpread3 (.obj [("b", .num 1)]) (.obj [("b", .num 1)])
          (.obj [("a", .str "literal")]),
         .ok (.obj [("got", .obj [("b", .num 1), ("a", .str "literal")])])⟩],
       .ok (⟨mergeSpread3 (.obj [("b", .num 1)]) (.obj [("b", .num 1)])
          (.obj [("got", .obj [("b", .num 1), ("a", .str "literal")])]),
         .obj [("got", .obj [("b", .num 1), ("a", .str "literal")])]⟩,
        setField [] ("step_" ++ toString 0)
          (.obj [("input", .obj [("a", .str "literal")]),
            ("output", .obj [("got",
              .obj [("b", .num 1), ("a", .str "literal")])])]))) :=
  ⟨((nonfanout_step_payload (.obj [("b", .num 1)]) regC3 0
      ⟨"echo", [("a", "literal")]⟩ ⟨.obj [("b", .num 1)], .null⟩ [] rfl).1
      [("a", .str "literal")] rfl).1,
   ((nonfanout_step_payload (.obj [("b", .num 1)]) regC3 0
      ⟨"echo", [("a", "literal")]⟩ ⟨.obj [("b", .num 1)], .null⟩ [] rfl).1
      [("a", .str "literal")] rfl).2.1 _ (.obj [("got",
        .obj [("b", .num 1), ("a", .str "literal")])]) rfl⟩

/-! ## Claim C8 -/

/-- Halting of the step loop at the first failing step: the loop's overall
result is the wrapping step-failure error for that step's index, the trace
ends with the failing step's invocations, and nothing after it runs. -/
theorem runSteps_first_fail (init : JVal) :
    ∀ (pre : List WorkflowStep) (s : WorkflowStep) (rest : List WorkflowStep)
      (reg reg1 reg2 : RegistryState) (co co1 : CurrentOutput)
      (ctx ctx1 : List (String × JVal)) (i : Nat) (tr1 tr2 : List TraceEntry)
      (e : EngineErr),
      runSteps init reg co ctx i pre = (reg1, tr1, .ok (co1, ctx1)) →
      runStep init reg1 (i + pre.length) s co1 ctx1 = (reg2, tr2, .error e) →
      runSteps init reg co ctx i (pre ++ s :: rest) =
        (reg2, tr1 ++ tr2,
         .error (.stepFailed (i + pre.length) (errMessage e))) := by
  intro pre
  induction pre with
  | nil =>
    intro s rest reg reg1 reg2 co co1 ctx ctx1 i tr1 tr2 e hpre hfail
    simp only [runSteps, Prod.mk.injEq, Except.ok.injEq] at hpre
    obtain ⟨rfl, rfl, rfl, rfl⟩ := hpre
    simp only [List.length_nil, Nat.add_zero] at hfail
    unfold runSteps
    simp only [List.nil_append, hfail, List.length_nil, Nat.add_zero]
  | cons p pre' ih =>
    intro s rest reg reg1 reg2 co co1 ctx ctx1 i tr1 tr2 e hpre hfail
    unfold runSteps at hpre
    cases hs : runStep init reg i p co ctx with
    | mk regA rest2 =>
      obtain ⟨trA, resA⟩ := rest2
      simp only [hs] at hpre
      cases resA with
      | error e' => simp at hpre
      | ok pr =>
        obtain ⟨coA, ctxA⟩ := pr
        cases hrec : runSteps init regA coA ctxA (i + 1) pre' with
        | mk regB rest3 =>
          obtain ⟨trB, resB⟩ := rest3
          simp only [hrec, Prod.mk.injEq] at hpre
          obtain ⟨rfl, h2, h3⟩ := hpre
          rw [h3] at hrec
          have harr : (i + 1) + pre'.length = i + (p :: pre').length := by
            simp [List.length_cons]
            omega
          have hmain := ih s rest regA regB reg2 coA co1 ctxA ctx1 (i + 1)
            trB tr2 e hrec (by rw [harr]; exact hfail)
          rw [List.cons_append]
          unfold runSteps
          simp only [hs, hmain, harr, Prod.mk.injEq]
          exact ⟨trivial, by rw [← h2, List.append_assoc], trivial⟩

/-- C8 (amended): any failure inside a workflow step is wrapped as the error
`Workflow execution failed at step <index>: <cause message>` — carrying the
failing step's zero-based index and the underlying cause's message (the tool
name is only logged, not carried) — execution halts there, no later step
runs, the trace contains only invocations up to the failing step, and no
result value is produced. -/
theorem workflow_halts_at_first_failure (reg : RegistryState) (wfId : String)
    (init : JVal) (wf : Workflow) (pre : List WorkflowStep) (s : WorkflowStep)
    (rest : List WorkflowStep) (reg1 reg2 : RegistryState)
    (co1 : CurrentOutput) (ctx1 : List (String × JVal))
    (tr1 tr2 : List TraceEntry) (e : EngineErr)
    (hwf : lookupKey reg.workflows wfId = some wf)
    (hsteps : wf.steps = pre ++ s :: rest)
    (hpre : runSteps init reg ⟨init, .null⟩ [] 0 pre = (reg1, tr1, .ok (co1, ctx1)))
    (hfail : runStep init reg1 pre.length s co1 ctx1 = (reg2, tr2, .error e)) :
    executeWorkflow reg wfId init =
      ⟨reg2, tr1 ++ tr2, [], .error (.stepFailed pre.length (errMessage e))⟩ := by
  have hrun := runSteps_first_fail init pre s rest reg reg1 reg2
    ⟨init, .null⟩ co1 [] ctx1 0 tr1 tr2 e hpre (by simpa using hfail)
  unfold executeWorkflow
  simp only [hwf, hsteps, hrun, Nat.zero_add]

/-- C8 fixture tool. -/
def prodToolC8 : ToolConfig :=
  { interface := ⟨"mytool", .null⟩
    inputSchema := .sObject (propsOf [("x", .sString)]) []
    outputSchema := .sObject .nil []
    handler := fun _ => .obj [] }

/-- C8 fixture workflow: its only step resolves `input.a.b`, which fails on
`{a: null}`. -/
def wfC8 : Workflow := ⟨"wf-8", "w", "d", [⟨"mytool", [("x", "input.a.b")]⟩]⟩

/-- C8 fixture registry. -/
def regC8 : RegistryState := ⟨[("mytool", prodToolC8)], [("wf-8", wfC8)], 0⟩

/-- C8 counterexample: the propagated step-failure error carries the index
and the cause's message but nowhere the tool name `mytool`, contradicting
the claim that it always carries the failing step's tool name. -/
theorem step_error_lacks_toolname_cex :
    (executeWorkflow regC8 "wf-8" (.obj [("a", .null)])).result =
      .error (.stepFailed 0 "Path resolution failed at b") ∧
    jsIncludes (errMessage (.stepFailed 0 "Path resolution failed at b"))
      "mytool" = false ∧
    (executeWorkflow regC8 "wf-8" (.obj [("a", .null)])).trace = [] :=
  ⟨rfl, by decide, rfl⟩

/-- C8 witness: the halting theorem applied at the concrete failing run. -/
theorem workflow_halts_witness :
    executeWorkflow regC8 "wf-8" (.obj [("a", .null)]) =
      ⟨regC8, [], [], .error (.stepFailed 0 "Path resolution failed at b")⟩ :=
  workflow_halts_at_first_failure regC8 "wf-8" (.obj [("a", .null)]) wfC8
    [] ⟨"mytool", [("x", "input.a.b")]⟩ [] regC8 regC8
    ⟨.obj [("a", .null)], .null⟩ [] [] [] (.pathResolutionFailed "b")
    rfl rfl rfl rfl

/-! ## Claim C1 -/

/-- The step-1 output of the fan-out scenario. -/
def ideasAB : JVal :=
  .obj [("ideas", .arr [.obj [("idea", .str "A")], .obj [("idea", .str "B")]])]

/-- C1: in a two-step workflow whose first (non-fan-out) step produces
`{ideas: [{idea:"A"},{idea:"B"}]}` and whose second step maps
`title: "output.ideas[$index].idea"`, execution invokes the step-2 tool
exactly twice — first with `{title:"A"}`, then with `{title:"B"}`, each
receiving exactly that mapped input — and the workflow's final output is the
array of the two step-2 tool outputs in that element order. -/
theorem workflow_fanout_scenario
    (reg reg1 reg2 reg3 : RegistryState) (wfId : String) (wf : Workflow)
    (t1 t2 : String) (map1 : List (String × String))
    (initialInput : JVal) (m1 : List (String × JVal)) (o1 o2 : JVal)
    (hwf : lookupKey reg.workflows wfId = some wf)
    (hsteps : wf.steps = [⟨t1, map1⟩,
      ⟨t2, [("title", "output.ideas[$index].idea")]⟩])
    (hne : t1 ≠ t2)
    (hnofan : map1.find? (fun kv => jsIncludes kv.2 "$index") = none)
    (hm1 : prepareStepInput ⟨t1, map1⟩ ⟨initialInput, .null⟩ [] none = .ok m1)
    (hcall1 : executeToolWithJsonOutput reg t1
      (mergeSpread3 initialInput initialInput (.obj m1)) = (reg1, .ok ideasAB))
    (hcall2 : executeToolWithJsonOutput reg1 t2 (.obj [("title", .str "A")]) =
      (reg2, .ok o1))
    (hcall3 : executeToolWithJsonOutput reg2 t2 (.obj [("title", .str "B")]) =
      (reg3, .ok o2)) :
    (executeWorkflow reg wfId initialInput).trace =
      [⟨t1, mergeSpread3 initialInput initialInput (.obj m1), .ok ideasAB⟩,
       ⟨t2, .obj [("title", .str "A")], .ok o1⟩,
       ⟨t2, .obj [("title", .str "B")], .ok o2⟩] ∧
    (executeWorkflow reg wfId initialInput).trace.filter
        (fun e => e.toolName == t2) =
      [⟨t2, .obj [("title", .str "A")], .ok o1⟩,
       ⟨t2, .obj [("title", .str "B")], .ok o2⟩] ∧
    (executeWorkflow reg wfId initialInput).result = .ok (.arr [o1, o2]) := by
  have hstep1 := runStep_normal_eval initialInput reg 0 ⟨t1, map1⟩
    ⟨initialInput, .null⟩ [] m1 reg1 ideasAB hnofan hm1 hcall1
  have hstep2 : ∀ ctx1 : List (String × JVal),
      runStep initialInput reg1 1
        ⟨t2, [("title", "output.ideas[$index].idea")]⟩
        ⟨mergeSpread3 initialInput initialInput ideasAB, ideasAB⟩ ctx1 =
      (reg3, [⟨t2, .obj [("title", .str "A")], .ok o1⟩,
              ⟨t2, .obj [("title", .str "B")], .ok o2⟩],
       .ok (⟨mergeSpread3 initialInput
              (mergeSpread3 initialInput initialInput ideasAB)
              (.arr [o1, o2]), .arr [o1, o2]⟩,
            setField ctx1 ("step_" ++ toString 1)
              (.obj [("input",
                mergeSpread3 initialInput initialInput ideasAB),
                ("output", .arr [o1, o2])]))) := by
    intro ctx1
    have hfind : (WorkflowStep.mk t2
        [("title", "output.ideas[$index].idea")]).inputMapping.find?
        (fun kv => jsIncludes kv.2 "$index") =
        some ("title", "output.ideas[$index].idea") := rfl
    have hgv : getValueFromPath
        (coToJVal ⟨mergeSpread3 initialInput initialInput ideasAB, ideasAB⟩)
        (basePathOf "output.ideas[$index].idea") =
        .ok (.arr [.obj [("idea", .str "A")], .obj [("idea", .str "B")]]) := rfl
    have hp0 : prepareStepInput
        ⟨t2, [("title", "output.ideas[$index].idea")]⟩
        ⟨mergeSpread3 initialInput initialInput ideasAB, ideasAB⟩ ctx1
        (some 0) = .ok [("title", .str "A")] := rfl
    have hp1 : prepareStepInput
        ⟨t2, [("title", "output.ideas[$index].idea")]⟩
        ⟨mergeSpread3 initialInput initialInput ideasAB, ideasAB⟩ ctx1
        (some 1) = .ok [("title", .str "B")] := rfl
    unfold runStep
    simp only [hfind, hgv]
    rw [show List.range (List.length
      [JVal.obj [("idea", .str "A")], JVal.obj [("idea", .str "B")]]) = [0, 1]
      from rfl]
    simp only [processArrayLoop, hp0, hp1, hcall2, hcall3]
  unfold executeWorkflow
  simp only [hwf, hsteps]
  unfold runSteps
  simp only [hstep1]
  unfold runSteps
  simp only [Nat.zero_add, hstep2]
  unfold runSteps
  refine ⟨rfl, ?_, rfl⟩
  have hbeq : (t1 == t2) = false := beq_eq_false_iff_ne.mpr hne
  simp [List.filter, hbeq]

/-- C1 witness fixtures: the generator tool and the per-idea producer. -/
def genToolC1 : ToolConfig :=
  { interface := ⟨"gen", .null⟩
    inputSchema := .sObject .nil []
    outputSchema := .sObject .nil []
    handler := fun _ => ideasAB }

/-- C1 witness fixture: the step-2 tool. -/
def prodToolC1 : ToolConfig :=
  { interface := ⟨"produce", .null⟩
    inputSchema := .sObject (propsOf [("title", .sString)]) ["title"]
    outputSchema := .sObject .nil []
    handler := fun it => .obj [("echo", it.toolArgs)] }

/-- C1 witness fixture: the two-step workflow. -/
def wfC1 : Workflow := ⟨"wf-1", "w", "d",
  [⟨"gen", [("topic", "input.topic")]⟩,
   ⟨"produce", [("title", "output.ideas[$index].idea")]⟩]⟩

/-- C1 witness fixture registry. -/
def regC1 : RegistryState :=
  ⟨[("gen", genToolC1), ("produce", prodToolC1)], [("wf-1", wfC1)], 0⟩

/-- C1 witness: registry state after the step-1 call. -/
def regC1a : RegistryState :=
  (executeToolWithJsonOutput regC1 "gen"
    (mergeSpread3 (.obj [("topic", .str "cats")])
      (.obj [("topic", .str "cats")])
      (.obj [("topic", .str "cats")]))).1

/-- C1 witness: registry state after the first fan-out call. -/
def regC1b : RegistryState :=
  (executeToolWithJsonOutput regC1a "produce"
    (.obj [("title", .str "A")])).1

/-- C1 witness: registry state after the second fan-out call. -/
def regC1c : RegistryState :=
  (executeToolWithJsonOutput regC1b "produce"
    (.obj [("title", .str "B")])).1

/-- C1 witness: the fan-out scenario evaluated on a concrete registry. -/
theorem workflow_fanout_scenario_witness :
    (executeWorkflow regC1 "wf-1" (.obj [("topic", .str "cats")])).trace =
      [⟨"gen", .obj [("topic", .str "cats")], .ok ideasAB⟩,
       ⟨"produce", .obj [("title", .str "A")],
         .ok (.obj [("echo", .obj [("title", .str "A")])])⟩,
       ⟨"produce", .obj [("title", .str "B")],
         .ok (.obj [("echo", .obj [("title", .str "B")])])⟩] ∧
    (executeWorkflow regC1 "wf-1"
        (.obj [("topic", .str "cats")])).trace.filter
        (fun e => e.toolName == "produce") =
      [⟨"produce", .obj [("title", .str "A")],
         .ok (.obj [("echo", .obj [("title", .str "A")])])⟩,
       ⟨"produce", .obj [("title", .str "B")],
         .ok (.obj [("echo", .obj [("title", .str "B")])])⟩] ∧
    (executeWorkflow regC1 "wf-1" (.obj [("topic", .str "cats")])).result =
      .ok (.arr [.obj [("echo", .obj [("title", .str "A")])],
                 .obj [("echo", .obj [("title", .str "B")])]]) :=
  workflow_fanout_scenario regC1 regC1a regC1b regC1c "wf-1" wfC1
    "gen" "produce" [("topic", "input.topic")]
    (.obj [("topic", .str "cats")]) [("topic", .str "cats")]
    (.obj [("echo", .obj [("title", .str "A")])])
    (.obj [("echo", .obj [("title", .str "B")])])
    rfl rfl (by decide) rfl rfl rfl rfl rfl

end Omega
